import Mathlib

/-!
Verification of the algorithm-visualizer solvers: shallow embeddings of the
0/1 knapsack and LCS dynamic-programming solvers with their step traces, the
binary max-heap solver and its monk-mode swap validator, the counting-sort
solver, Strassen matrix multiplication, and the knapsack traceback walk,
together with proofs of the documented behavioural properties.
-/

namespace Table

/-- Kind tag of a recorded table step; the source tags steps with the strings
inspect and update. -/
inductive StepKind where
  | inspect : StepKind
  | update : StepKind
deriving DecidableEq

/-- One recorded step of a table solver: target cell, kind, displayed value
(none models the question-mark placeholder of inspect steps) and the list of
highlighted dependency cells. Description strings are presentation only and
are not modelled. -/
structure Step where
  row : Nat
  col : Nat
  kind : StepKind
  value : Option Nat
  highlight : List (Nat × Nat)
deriving DecidableEq

/-- Mutable state of a table solver: the dp table, viewed as a total function
on coordinates (unwritten cells hold 0, as in the 0-filled source arrays),
and the list of emitted steps. -/
structure SolveState where
  dp : Nat → Nat → Nat
  steps : List Step

/-- Assignment dp[r][c] = v on the functional view of the 2D array. -/
def setCell (t : Nat → Nat → Nat) (r c v : Nat) : Nat → Nat → Nat :=
  fun r2 c2 => if r2 = r ∧ c2 = c then v else t r2 c2

theorem setCell_same (t : Nat → Nat → Nat) (r c v : Nat) : setCell t r c v r c = v := by
  simp [setCell]

theorem setCell_other (t : Nat → Nat → Nat) (r c v r2 c2 : Nat) (h : ¬(r2 = r ∧ c2 = c)) :
    setCell t r c v r2 c2 = t r2 c2 := by
  simp only [setCell, if_neg h]

/-- Inner for-loop of buildTable: process cells (i, 0) .. (i, cols - 1). -/
def rowLoop (handle : SolveState → Nat → Nat → SolveState) (i cols : Nat)
    (st : SolveState) : SolveState :=
  (List.range cols).foldl (fun s w => handle s i w) st

/-- Nested for-loops of buildTable over all rows and columns. -/
def tableLoop (handle : SolveState → Nat → Nat → SolveState) (rows cols : Nat)
    (st : SolveState) : SolveState :=
  (List.range rows).foldl (fun s i => rowLoop handle i cols s) st

/-- Row-major list of all cells of a rows-by-cols table, the order in which
the nested loops of buildTable visit them. -/
def rowMajor (rows cols : Nat) : List (Nat × Nat) :=
  (List.range rows).flatMap (fun i => (List.range cols).map (fun w => (i, w)))

/-- Agreement of a table with the reference table g on every in-range cell
strictly before (i, w) in row-major order. -/
def AgreesBelow (g : Nat → Nat → Nat) (rows cols : Nat) (t : Nat → Nat → Nat)
    (i w : Nat) : Prop :=
  ∀ i2 w2, i2 < rows → w2 < cols → (i2 < i ∨ (i2 = i ∧ w2 < w)) → t i2 w2 = g i2 w2

/-- Specification of a per-cell handler: whenever the table already agrees
with the reference table g on the previously processed cells, handling cell
(i, w) writes g i w into that cell and appends the reference steps F i w. -/
def HandleSpec (handle : SolveState → Nat → Nat → SolveState) (g : Nat → Nat → Nat)
    (F : Nat → Nat → List Step) (rows cols : Nat) : Prop :=
  ∀ st i w, i < rows → w < cols → AgreesBelow g rows cols st.dp i w →
    (handle st i w).dp = setCell st.dp i w (g i w) ∧
    (handle st i w).steps = st.steps ++ F i w

theorem rowLoop_range_spec (handle : SolveState → Nat → Nat → SolveState)
    (g : Nat → Nat → Nat) (F : Nat → Nat → List Step) (rows cols : Nat)
    (H : HandleSpec handle g F rows cols) (k : Nat) (hk : k < rows) :
    ∀ j, j ≤ cols → ∀ st : SolveState,
      (∀ i w, i < k → w < cols → st.dp i w = g i w) →
      (∀ i w, ((List.range j).foldl (fun s w => handle s k w) st).dp i w
          = if i = k ∧ w < j then g k w else st.dp i w) ∧
      ((List.range j).foldl (fun s w => handle s k w) st).steps
          = st.steps ++ (List.range j).flatMap (fun w => F k w) := by
  intro j
  induction j with
  | zero =>
    intro _ st _
    constructor
    · intro i w
      simp
    · simp
  | succ j ih =>
    intro hj st hst
    have hj2 : j ≤ cols := Nat.le_of_succ_le hj
    obtain ⟨ihdp, ihsteps⟩ := ih hj2 st hst
    set st1 := (List.range j).foldl (fun s w => handle s k w) st with hst1
    have hagree : AgreesBelow g rows cols st1.dp k j := by
      intro i2 w2 h2r h2c hearly
      rcases hearly with hlt | ⟨heq, hwlt⟩
      · rw [ihdp]
        rw [if_neg (by omega)]
        exact hst i2 w2 hlt h2c
      · subst heq
        rw [ihdp, if_pos ⟨rfl, hwlt⟩]
    obtain ⟨hdp, hsteps⟩ := H st1 k j hk (Nat.lt_of_succ_le hj) hagree
    have hfold : (List.range (j + 1)).foldl (fun s w => handle s k w) st = handle st1 k j := by
      rw [List.range_succ, List.foldl_append]
      simp [hst1]
    constructor
    · intro i w
      rw [hfold, hdp]
      by_cases hc : i = k ∧ w < j + 1
      · obtain ⟨hik, hwj⟩ := hc
        subst hik
        rw [if_pos ⟨rfl, hwj⟩]
        by_cases hw : w = j
        · subst hw
          exact setCell_same _ _ _ _
        · rw [setCell_other _ _ _ _ _ _ (by omega), ihdp, if_pos ⟨rfl, by omega⟩]
      · rw [if_neg hc]
        have hno : ¬(i = k ∧ w = j) := by
          intro ⟨h1, h2⟩
          exact hc ⟨h1, by omega⟩
        rw [setCell_other _ _ _ _ _ _ hno, ihdp]
        rw [if_neg (by intro ⟨h1, h2⟩; exact hc ⟨h1, by omega⟩)]
    · rw [hfold, hsteps, ihsteps, List.range_succ]
      simp [List.append_assoc]

theorem tableLoop_range_spec (handle : SolveState → Nat → Nat → SolveState)
    (g : Nat → Nat → Nat) (F : Nat → Nat → List Step) (rows cols : Nat)
    (H : HandleSpec handle g F rows cols) (st0 : SolveState) :
    ∀ m, m ≤ rows →
      (∀ i w, ((List.range m).foldl (fun s i => rowLoop handle i cols s) st0).dp i w
          = if i < m ∧ w < cols then g i w else st0.dp i w) ∧
      ((List.range m).foldl (fun s i => rowLoop handle i cols s) st0).steps
          = st0.steps ++ (rowMajor m cols).flatMap (fun p => F p.1 p.2) := by
  intro m
  induction m with
  | zero =>
    intro _
    constructor
    · intro i w
      simp
    · simp [rowMajor]
  | succ m ih =>
    intro hm
    have hm2 : m ≤ rows := Nat.le_of_succ_le hm
    obtain ⟨ihdp, ihsteps⟩ := ih hm2
    set stm := (List.range m).foldl (fun s i => rowLoop handle i cols s) st0 with hstm
    have hfold : (List.range (m + 1)).foldl (fun s i => rowLoop handle i cols s) st0
        = rowLoop handle m cols stm := by
      rw [List.range_succ, List.foldl_append]
      simp [hstm]
    have hprev : ∀ i w, i < m → w < cols → stm.dp i w = g i w := by
      intro i w hi hw
      rw [ihdp, if_pos ⟨hi, hw⟩]
    obtain ⟨rdp, rsteps⟩ := rowLoop_range_spec handle g F rows cols H m
      (Nat.lt_of_succ_le hm) cols (Nat.le_refl cols) stm hprev
    constructor
    · intro i w
      rw [hfold]
      unfold rowLoop
      rw [rdp]
      by_cases him : i = m ∧ w < cols
      · obtain ⟨h1, h2⟩ := him
        subst h1
        rw [if_pos ⟨rfl, h2⟩, if_pos ⟨by omega, h2⟩]
      · rw [if_neg him, ihdp]
        by_cases hc : i < m + 1 ∧ w < cols
        · obtain ⟨h1, h2⟩ := hc
          have h3 : i < m := by
            rcases Nat.lt_succ_iff_lt_or_eq.mp h1 with h | h
            · exact h
            · exact absurd ⟨h, h2⟩ him
          rw [if_pos ⟨h3, h2⟩, if_pos ⟨by omega, h2⟩]
        · rw [if_neg (by intro ⟨h1, h2⟩; exact hc ⟨by omega, h2⟩), if_neg hc]
    · rw [hfold]
      unfold rowLoop
      rw [rsteps, ihsteps]
      have hrm : rowMajor (m + 1) cols
          = rowMajor m cols ++ (List.range cols).map (fun w => (m, w)) := by
        unfold rowMajor
        rw [List.range_succ]
        simp
      rw [hrm]
      simp [List.append_assoc, List.flatMap_map]

/-- Characterization of a full tableLoop run from the all-zero initial state:
the final table agrees with the reference table on every in-range cell, and
the emitted steps are the concatenation, in row-major cell order, of the
reference step lists. -/
theorem tableLoop_spec (handle : SolveState → Nat → Nat → SolveState)
    (g : Nat → Nat → Nat) (F : Nat → Nat → List Step) (rows cols : Nat)
    (H : HandleSpec handle g F rows cols) (st0 : SolveState) :
    (∀ i w, i < rows → w < cols → (tableLoop handle rows cols st0).dp i w = g i w) ∧
    (tableLoop handle rows cols st0).steps
        = st0.steps ++ (rowMajor rows cols).flatMap (fun p => F p.1 p.2) := by
  obtain ⟨hdp, hsteps⟩ := tableLoop_range_spec handle g F rows cols H st0 rows (Nat.le_refl rows)
  constructor
  · intro i w hi hw
    have := hdp i w
    rw [if_pos ⟨hi, hw⟩] at this
    exact this
  · exact hsteps

end Table

namespace Knap

open Table

/-- Translation of KnapsackSolver._handleBaseCell: write 0 and emit one
update step with no highlight. -/
def handleBaseCell (st : SolveState) (row col : Nat) : SolveState :=
  { dp := setCell st.dp row col 0
    steps := st.steps ++ [⟨row, col, StepKind.update, some 0, []⟩] }

/-- Translation of KnapsackSolver._handleDecisionCell together with the step
recorders _recordInspect, _recordUpdate and _recordExclude. -/
def handleDecisionCell (weights values : List Nat) (st : SolveState)
    (row col : Nat) : SolveState :=
  let currentWeight := weights.getD (row - 1) 0
  let currentValue := values.getD (row - 1) 0
  if currentWeight > col then
    let v := st.dp (row - 1) col
    { dp := setCell st.dp row col v
      steps := st.steps ++
        [⟨row, col, StepKind.inspect, none, [(row - 1, col)]⟩,
         ⟨row, col, StepKind.update, some v, [(row - 1, col)]⟩] }
  else
    let includeVal := currentValue + st.dp (row - 1) (col - currentWeight)
    let excludeVal := st.dp (row - 1) col
    let newVal := max includeVal excludeVal
    { dp := setCell st.dp row col newVal
      steps := st.steps ++
        [⟨row, col, StepKind.inspect, none, [(row - 1, col - currentWeight), (row - 1, col)]⟩,
         ⟨row, col, StepKind.update, some newVal,
           if includeVal > excludeVal then [(row - 1, col - currentWeight)]
           else [(row - 1, col)]⟩] }

/-- Body of KnapsackSolver._buildTable for one cell: base cells are the ones
with row 0 or column 0. -/
def handleCell (weights values : List Nat) (st : SolveState) (row col : Nat) : SolveState :=
  if row = 0 ∨ col = 0 then handleBaseCell st row col
  else handleDecisionCell weights values st row col

/-- Translation of KnapsackSolver.solve: reset the dp table to zeros and the
step list to empty, then run _buildTable over the (itemCount+1) x (capacity+1)
grid. -/
def solve (capacity : Nat) (weights values : List Nat) : SolveState :=
  tableLoop (handleCell weights values) (weights.length + 1) (capacity + 1)
    ⟨fun _ _ => 0, []⟩

/-- Final dp table returned by KnapsackSolver.solve. -/
def table (capacity : Nat) (weights values : List Nat) : Nat → Nat → Nat :=
  (solve capacity weights values).dp

/-- Step list returned by KnapsackSolver.solve. -/
def steps (capacity : Nat) (weights values : List Nat) : List Step :=
  (solve capacity weights values).steps

/-- Reference dp table: the textbook 0/1 knapsack recurrence the cells are
filled with. -/
def dpRef (weights values : List Nat) : Nat → Nat → Nat
  | 0, _ => 0
  | i + 1, w =>
    if w = 0 then 0
    else if weights.getD i 0 > w then dpRef weights values i w
    else max (values.getD i 0 + dpRef weights values i (w - weights.getD i 0))
      (dpRef weights values i w)

theorem dpRef_base (weights values : List Nat) (i w : Nat) (h : i = 0 ∨ w = 0) :
    dpRef weights values i w = 0 := by
  rcases h with h | h
  · subst h
    rfl
  · subst h
    cases i with
    | zero => rfl
    | succ i => simp [dpRef]

/-- Reference steps emitted while processing one cell, expressed against the
reference dp table. -/
def cellSteps (weights values : List Nat) (i w : Nat) : List Step :=
  if i = 0 ∨ w = 0 then [⟨i, w, StepKind.update, some 0, []⟩]
  else
    let cw := weights.getD (i - 1) 0
    if cw > w then
      [⟨i, w, StepKind.inspect, none, [(i - 1, w)]⟩,
       ⟨i, w, StepKind.update, some (dpRef weights values (i - 1) w), [(i - 1, w)]⟩]
    else
      let includeVal := values.getD (i - 1) 0 + dpRef weights values (i - 1) (w - cw)
      let excludeVal := dpRef weights values (i - 1) w
      [⟨i, w, StepKind.inspect, none, [(i - 1, w - cw), (i - 1, w)]⟩,
       ⟨i, w, StepKind.update, some (max includeVal excludeVal),
         if includeVal > excludeVal then [(i - 1, w - cw)] else [(i - 1, w)]⟩]

theorem handleSpec (weights values : List Nat) (rows cols : Nat) :
    HandleSpec (handleCell weights values) (dpRef weights values)
      (cellSteps weights values) rows cols := by
  intro st i w hi hw hagree
  by_cases hbase : i = 0 ∨ w = 0
  · rw [handleCell, if_pos hbase, cellSteps, if_pos hbase, dpRef_base weights values i w hbase]
    exact ⟨rfl, rfl⟩
  · push_neg at hbase
    obtain ⟨hi0, hw0⟩ := hbase
    obtain ⟨i1, rfl⟩ : ∃ i1, i = i1 + 1 := ⟨i - 1, by omega⟩
    obtain ⟨w1, rfl⟩ : ∃ w1, w = w1 + 1 := ⟨w - 1, by omega⟩
    have hup : st.dp i1 (w1 + 1) = dpRef weights values i1 (w1 + 1) :=
      hagree i1 (w1 + 1) (by omega) hw (by omega)
    rw [handleCell, if_neg (by omega), cellSteps, if_neg (by omega)]
    rw [handleDecisionCell]
    simp only [Nat.add_sub_cancel]
    by_cases hcw : weights.getD i1 0 > w1 + 1
    · rw [if_pos hcw, if_pos hcw]
      constructor
      · rw [hup]
        have : dpRef weights values (i1 + 1) (w1 + 1)
            = dpRef weights values i1 (w1 + 1) := by
          rw [dpRef, if_neg (by omega), if_pos hcw]
        rw [this]
      · rw [hup]
    · rw [if_neg hcw, if_neg hcw]
      have hsub : st.dp i1 (w1 + 1 - weights.getD i1 0)
          = dpRef weights values i1 (w1 + 1 - weights.getD i1 0) :=
        hagree i1 (w1 + 1 - weights.getD i1 0) (by omega) (by omega) (by omega)
      have hval : dpRef weights values (i1 + 1) (w1 + 1)
          = max (values.getD i1 0 + dpRef weights values i1 (w1 + 1 - weights.getD i1 0))
            (dpRef weights values i1 (w1 + 1)) := by
        rw [dpRef, if_neg (by omega), if_neg hcw]
      constructor
      · rw [hup, hsub, hval]
      · rw [hup, hsub]

/-- The dp table returned by KnapsackSolver.solve agrees with the reference
recurrence table on every in-range cell. -/
theorem table_eq_dpRef (capacity : Nat) (weights values : List Nat) (i w : Nat)
    (hi : i ≤ weights.length) (hw : w ≤ capacity) :
    table capacity weights values i w = dpRef weights values i w :=
  (tableLoop_spec (handleCell weights values) (dpRef weights values)
    (cellSteps weights values) (weights.length + 1) (capacity + 1)
    (handleSpec weights values _ _) ⟨fun _ _ => 0, []⟩).1 i w (by omega) (by omega)

/-- The steps returned by KnapsackSolver.solve are exactly the per-cell
reference steps concatenated in row-major order. -/
theorem steps_eq (capacity : Nat) (weights values : List Nat) :
    steps capacity weights values
      = (rowMajor (weights.length + 1) (capacity + 1)).flatMap
          (fun p => cellSteps weights values p.1 p.2) :=
  (tableLoop_spec (handleCell weights values) (dpRef weights values)
    (cellSteps weights values) (weights.length + 1) (capacity + 1)
    (handleSpec weights values _ _) ⟨fun _ _ => 0, []⟩).2

end Knap

namespace LCS

open Table

/-- Translation of LCSSolver._handleBaseCell. -/
def handleBaseCell (st : SolveState) (row col : Nat) : SolveState :=
  { dp := setCell st.dp row col 0
    steps := st.steps ++ [⟨row, col, StepKind.update, some 0, []⟩] }

/-- Translation of LCSSolver._handleDecisionCell with _recordMatch,
_recordMismatch and _recordMismatchResult. In _recordMismatchResult the
source reads dp[row-1][col] and dp[row][col-1] after the assignment to
dp[row][col]; those two cells are unaffected by it, which the model reflects
by reading them from the updated table. -/
def handleDecisionCell (str1 str2 : List Char) (st : SolveState)
    (row col : Nat) : SolveState :=
  let char1 := str1.getD (row - 1) 'a'
  let char2 := str2.getD (col - 1) 'a'
  if char1 = char2 then
    let v := 1 + st.dp (row - 1) (col - 1)
    { dp := setCell st.dp row col v
      steps := st.steps ++
        [⟨row, col, StepKind.inspect, none, [(row - 1, col - 1)]⟩,
         ⟨row, col, StepKind.update, some v, [(row - 1, col - 1)]⟩] }
  else
    let newVal := max (st.dp (row - 1) col) (st.dp row (col - 1))
    let newDp := setCell st.dp row col newVal
    let topVal := newDp (row - 1) col
    let leftVal := newDp row (col - 1)
    { dp := newDp
      steps := st.steps ++
        [⟨row, col, StepKind.inspect, none, [(row - 1, col), (row, col - 1)]⟩,
         ⟨row, col, StepKind.update, some (newDp row col),
           if topVal > leftVal then [(row - 1, col)] else [(row, col - 1)]⟩] }

/-- Body of LCSSolver._buildTable for one cell. -/
def handleCell (str1 str2 : List Char) (st : SolveState) (row col : Nat) : SolveState :=
  if row = 0 ∨ col = 0 then handleBaseCell st row col
  else handleDecisionCell str1 str2 st row col

/-- Translation of LCSSolver.solve over the (rows+1) x (cols+1) grid, with
the two input strings modelled as lists of characters. -/
def solve (str1 str2 : List Char) : SolveState :=
  tableLoop (handleCell str1 str2) (str1.length + 1) (str2.length + 1)
    ⟨fun _ _ => 0, []⟩

/-- Final dp table returned by LCSSolver.solve. -/
def table (str1 str2 : List Char) : Nat → Nat → Nat :=
  (solve str1 str2).dp

/-- Step list returned by LCSSolver.solve. -/
def steps (str1 str2 : List Char) : List Step :=
  (solve str1 str2).steps

/-- Reference dp table: the textbook LCS length recurrence. -/
def dpRef (str1 str2 : List Char) : Nat → Nat → Nat
  | 0, _ => 0
  | _ + 1, 0 => 0
  | i + 1, j + 1 =>
    if str1.getD i 'a' = str2.getD j 'a' then 1 + dpRef str1 str2 i j
    else max (dpRef str1 str2 i (j + 1)) (dpRef str1 str2 (i + 1) j)

theorem dpRef_base_lcs (str1 str2 : List Char) (i j : Nat) (h : i = 0 ∨ j = 0) :
    dpRef str1 str2 i j = 0 := by
  rcases h with h | h
  · subst h
    simp [dpRef]
  · subst h
    cases i with
    | zero => simp [dpRef]
    | succ i => simp [dpRef]

/-- Reference steps emitted while processing one LCS cell, expressed against
the reference dp table. -/
def cellSteps (str1 str2 : List Char) (i j : Nat) : List Step :=
  if i = 0 ∨ j = 0 then [⟨i, j, StepKind.update, some 0, []⟩]
  else if str1.getD (i - 1) 'a' = str2.getD (j - 1) 'a' then
    [⟨i, j, StepKind.inspect, none, [(i - 1, j - 1)]⟩,
     ⟨i, j, StepKind.update, some (1 + dpRef str1 str2 (i - 1) (j - 1)), [(i - 1, j - 1)]⟩]
  else
    let topVal := dpRef str1 str2 (i - 1) j
    let leftVal := dpRef str1 str2 i (j - 1)
    [⟨i, j, StepKind.inspect, none, [(i - 1, j), (i, j - 1)]⟩,
     ⟨i, j, StepKind.update, some (max topVal leftVal),
       if topVal > leftVal then [(i - 1, j)] else [(i, j - 1)]⟩]

theorem handleSpec_lcs (str1 str2 : List Char) (rows cols : Nat) :
    HandleSpec (handleCell str1 str2) (dpRef str1 str2)
      (cellSteps str1 str2) rows cols := by
  intro st i j hi hj hagree
  by_cases hbase : i = 0 ∨ j = 0
  · rw [handleCell, if_pos hbase, cellSteps, if_pos hbase, dpRef_base_lcs str1 str2 i j hbase]
    exact ⟨rfl, rfl⟩
  · push_neg at hbase
    obtain ⟨hi0, hj0⟩ := hbase
    obtain ⟨i1, rfl⟩ : ∃ i1, i = i1 + 1 := ⟨i - 1, by omega⟩
    obtain ⟨j1, rfl⟩ : ∃ j1, j = j1 + 1 := ⟨j - 1, by omega⟩
    have htop : st.dp i1 (j1 + 1) = dpRef str1 str2 i1 (j1 + 1) :=
      hagree i1 (j1 + 1) (by omega) hj (by omega)
    have hleft : st.dp (i1 + 1) j1 = dpRef str1 str2 (i1 + 1) j1 :=
      hagree (i1 + 1) j1 hi (by omega) (by omega)
    have hdiag : st.dp i1 j1 = dpRef str1 str2 i1 j1 :=
      hagree i1 j1 (by omega) (by omega) (by omega)
    rw [handleCell, if_neg (by omega), cellSteps, if_neg (by omega)]
    rw [handleDecisionCell]
    simp only [Nat.add_sub_cancel]
    by_cases hch : str1.getD i1 'a' = str2.getD j1 'a'
    · rw [if_pos hch, if_pos hch]
      have hval : dpRef str1 str2 (i1 + 1) (j1 + 1) = 1 + dpRef str1 str2 i1 j1 := by
        rw [dpRef, if_pos hch]
      constructor
      · rw [hdiag, hval]
      · rw [hdiag]
    · rw [if_neg hch, if_neg hch]
      have hval : dpRef str1 str2 (i1 + 1) (j1 + 1)
          = max (dpRef str1 str2 i1 (j1 + 1)) (dpRef str1 str2 (i1 + 1) j1) := by
        rw [dpRef, if_neg hch]
      have hsetTop : setCell st.dp (i1 + 1) (j1 + 1)
          (max (st.dp i1 (j1 + 1)) (st.dp (i1 + 1) j1)) i1 (j1 + 1) = st.dp i1 (j1 + 1) :=
        setCell_other _ _ _ _ _ _ (by omega)
      have hsetLeft : setCell st.dp (i1 + 1) (j1 + 1)
          (max (st.dp i1 (j1 + 1)) (st.dp (i1 + 1) j1)) (i1 + 1) j1 = st.dp (i1 + 1) j1 :=
        setCell_other _ _ _ _ _ _ (by omega)
      constructor
      · rw [htop, hleft, hval]
      · rw [hsetTop, hsetLeft, setCell_same, htop, hleft]

/-- The dp table returned by LCSSolver.solve agrees with the reference LCS
recurrence table on every in-range cell. -/
theorem table_eq_dpRef_lcs (str1 str2 : List Char) (i j : Nat)
    (hi : i ≤ str1.length) (hj : j ≤ str2.length) :
    table str1 str2 i j = dpRef str1 str2 i j :=
  (tableLoop_spec (handleCell str1 str2) (dpRef str1 str2)
    (cellSteps str1 str2) (str1.length + 1) (str2.length + 1)
    (handleSpec_lcs str1 str2 _ _) ⟨fun _ _ => 0, []⟩).1 i j (by omega) (by omega)

/-- The steps returned by LCSSolver.solve are exactly the per-cell reference
steps concatenated in row-major order. -/
theorem steps_eq_lcs (str1 str2 : List Char) :
    steps str1 str2
      = (rowMajor (str1.length + 1) (str2.length + 1)).flatMap
          (fun p => cellSteps str1 str2 p.1 p.2) :=
  (tableLoop_spec (handleCell str1 str2) (dpRef str1 str2)
    (cellSteps str1 str2) (str1.length + 1) (str2.length + 1)
    (handleSpec_lcs str1 str2 _ _) ⟨fun _ _ => 0, []⟩).2

end LCS

namespace Heap

/-- Destructuring swap of two array slots, as in the source:
[array[i], array[j]] = [array[j], array[i]]. -/
def listSwap (a : List Nat) (i j : Nat) : List Nat :=
  (a.set i (a.getD j 0)).set j (a.getD i 0)

/-- Translation of HeapSolver._pickLargestChild: starting from the candidate
largest, take the left child if it is in the heap and strictly larger, then
the right child if it is in the heap and strictly larger than the current
candidate. -/
def pickLargestChild (a : List Nat) (left right heapSize largest : Nat) : Nat :=
  let c1 := if left < heapSize ∧ a.getD largest 0 < a.getD left 0 then left else largest
  if right < heapSize ∧ a.getD c1 0 < a.getD right 0 then right else c1

theorem pickLargestChild_cases (a : List Nat) (left right heapSize largest : Nat) :
    pickLargestChild a left right heapSize largest = largest ∨
    (pickLargestChild a left right heapSize largest = left ∧ left < heapSize) ∨
    (pickLargestChild a left right heapSize largest = right ∧ right < heapSize) := by
  unfold pickLargestChild
  by_cases h1 : left < heapSize ∧ a.getD largest 0 < a.getD left 0
  · rw [if_pos h1]
    by_cases h2 : right < heapSize ∧ a.getD left 0 < a.getD right 0
    · rw [if_pos h2]
      exact Or.inr (Or.inr ⟨rfl, h2.1⟩)
    · rw [if_neg h2]
      exact Or.inr (Or.inl ⟨rfl, h1.1⟩)
  · rw [if_neg h1]
    by_cases h2 : right < heapSize ∧ a.getD largest 0 < a.getD right 0
    · rw [if_pos h2]
      exact Or.inr (Or.inr ⟨rfl, h2.1⟩)
    · rw [if_neg h2]
      exact Or.inl rfl

theorem pickLargestChild_ge (a : List Nat) (left right heapSize largest : Nat) :
    a.getD largest 0 ≤ a.getD (pickLargestChild a left right heapSize largest) 0 ∧
    (left < heapSize → a.getD left 0 ≤ a.getD (pickLargestChild a left right heapSize largest) 0) ∧
    (right < heapSize → a.getD right 0 ≤ a.getD (pickLargestChild a left right heapSize largest) 0) := by
  unfold pickLargestChild
  by_cases h1 : left < heapSize ∧ a.getD largest 0 < a.getD left 0
  · rw [if_pos h1]
    by_cases h2 : right < heapSize ∧ a.getD left 0 < a.getD right 0
    · rw [if_pos h2]
      exact ⟨by omega, fun _ => by omega, fun _ => by omega⟩
    · rw [if_neg h2]
      refine ⟨by omega, fun _ => by omega, fun hr => ?_⟩
      have := fun h => h2 ⟨hr, h⟩
      omega
  · rw [if_neg h1]
    by_cases h2 : right < heapSize ∧ a.getD largest 0 < a.getD right 0
    · rw [if_pos h2]
      refine ⟨by omega, fun hl => ?_, fun _ => by omega⟩
      have := fun h => h1 ⟨hl, h⟩
      omega
    · rw [if_neg h2]
      refine ⟨by omega, fun hl => ?_, fun hr => ?_⟩
      · have := fun h => h1 ⟨hl, h⟩
        omega
      · have := fun h => h2 ⟨hr, h⟩
        omega

/-- Translation of HeapSolver._heapifyNode: compare node i with its children,
and if a larger child exists swap with the largest and recurse into its
position. Step recording is presentation only for the properties proved here
and is omitted from this model. -/
def heapifyNode (a : List Nat) (i heapSize : Nat) : List Nat :=
  if h : pickLargestChild a (2 * i + 1) (2 * i + 2) heapSize i ≠ i then
    heapifyNode (listSwap a i (pickLargestChild a (2 * i + 1) (2 * i + 2) heapSize i))
      (pickLargestChild a (2 * i + 1) (2 * i + 2) heapSize i) heapSize
  else a
termination_by heapSize - i
decreasing_by
  rcases pickLargestChild_cases a (2 * i + 1) (2 * i + 2) heapSize i with hc | ⟨hc, hlt⟩ | ⟨hc, hlt⟩ <;>
    omega

/-- Fuel-indexed reformulation of heapifyNode used to evaluate it by kernel
reduction; it agrees with heapifyNode whenever the fuel covers the recursion
depth bound heapSize - i. -/
def heapifyGo : Nat → List Nat → Nat → Nat → List Nat
  | 0, a, _, _ => a
  | fuel + 1, a, i, heapSize =>
    let largest := pickLargestChild a (2 * i + 1) (2 * i + 2) heapSize i
    if largest ≠ i then heapifyGo fuel (listSwap a i largest) largest heapSize
    else a

theorem heapifyNode_eq_go (fuel : Nat) :
    ∀ a i heapSize, heapSize - i ≤ fuel →
      heapifyNode a i heapSize = heapifyGo fuel a i heapSize := by
  induction fuel with
  | zero =>
    intro a i heapSize hfuel
    have hpick : pickLargestChild a (2 * i + 1) (2 * i + 2) heapSize i = i := by
      unfold pickLargestChild
      rw [if_neg (by omega), if_neg (by omega)]
    rw [heapifyNode, heapifyGo]
    simp [hpick]
  | succ fuel ih =>
    intro a i heapSize hfuel
    rw [heapifyNode, heapifyGo]
    by_cases h : pickLargestChild a (2 * i + 1) (2 * i + 2) heapSize i ≠ i
    · simp only [dif_pos h, if_pos h]
      apply ih
      rcases pickLargestChild_cases a (2 * i + 1) (2 * i + 2) heapSize i with hc | ⟨hc, _⟩ | ⟨hc, _⟩
      · exact absurd hc h
      · rw [hc]
        omega
      · rw [hc]
        omega
    · simp only [dif_neg h, if_neg h]

/-- Translation of HeapSolver.buildMaxHeap: heapify every index from
floor(n/2) - 1 down to 0. For arrays of length at most 1 the start index is
negative in the source and the loop body never runs, which the empty range
models. -/
def buildMaxHeap (a : List Nat) : List Nat :=
  ((List.range (a.length / 2)).reverse).foldl (fun arr i => heapifyNode arr i arr.length) a

/-- Copy of buildMaxHeap over the fuel-indexed heapify used for kernel
evaluation on concrete inputs. -/
def buildMaxHeapGo (a : List Nat) : List Nat :=
  ((List.range (a.length / 2)).reverse).foldl (fun arr i => heapifyGo arr.length arr i arr.length) a

theorem buildMaxHeap_eq_go (a : List Nat) : buildMaxHeap a = buildMaxHeapGo a := by
  unfold buildMaxHeap buildMaxHeapGo
  have hfun : (fun (arr : List Nat) (i : Nat) => heapifyNode arr i arr.length)
      = fun (arr : List Nat) (i : Nat) => heapifyGo arr.length arr i arr.length := by
    funext arr i
    exact heapifyNode_eq_go arr.length arr i arr.length (by omega)
  rw [hfun]

end Heap

namespace Heap

theorem getD_set_self (l : List Nat) (i v : Nat) (h : i < l.length) :
    (l.set i v).getD i 0 = v := by
  simp [List.getD_eq_getElem?_getD, List.getElem?_set, h]

theorem getD_set_ne (l : List Nat) (i j v : Nat) (h : i ≠ j) :
    (l.set i v).getD j 0 = l.getD j 0 := by
  simp [List.getD_eq_getElem?_getD, List.getElem?_set, h]

theorem listSwap_length (a : List Nat) (i j : Nat) : (listSwap a i j).length = a.length := by
  simp [listSwap]

theorem listSwap_getD_fst (a : List Nat) (i j : Nat) (hij : i ≠ j) (hi : i < a.length) :
    (listSwap a i j).getD i 0 = a.getD j 0 := by
  rw [listSwap, getD_set_ne _ _ _ _ (fun h => hij h.symm), getD_set_self _ _ _ hi]

theorem listSwap_getD_snd (a : List Nat) (i j : Nat) (hj : j < a.length) :
    (listSwap a i j).getD j 0 = a.getD i 0 := by
  rw [listSwap, getD_set_self]
  rw [List.length_set]
  exact hj

theorem listSwap_getD_other (a : List Nat) (i j p : Nat) (hpi : p ≠ i) (hpj : p ≠ j) :
    (listSwap a i j).getD p 0 = a.getD p 0 := by
  rw [listSwap, getD_set_ne _ _ _ _ (fun h => hpj h.symm), getD_set_ne _ _ _ _ (fun h => hpi h.symm)]

theorem set_getD_cons_perm : ∀ (t : List Nat) (m v : Nat), m < t.length →
    List.Perm (t.getD m 0 :: t.set m v) (v :: t) := by
  intro t
  induction t with
  | nil =>
    intro m v h
    simp at h
  | cons b t ih =>
    intro m v h
    cases m with
    | zero =>
      simp only [List.getD_cons_zero, List.set_cons_zero]
      exact List.Perm.swap v b t
    | succ k =>
      simp only [List.getD_cons_succ, List.set_cons_succ]
      have hk : k < t.length := by
        simp at h
        omega
      exact List.Perm.trans
        (List.Perm.trans (List.Perm.swap b (t.getD k 0) (t.set k v))
          (List.Perm.cons b (ih k v hk)))
        (List.Perm.swap v b t)

theorem listSwap_perm : ∀ (a : List Nat) (i j : Nat), i < a.length → j < a.length →
    List.Perm (listSwap a i j) a := by
  intro a
  induction a with
  | nil =>
    intro i j hi _
    simp at hi
  | cons x t ih =>
    intro i j hi hj
    cases i with
    | zero =>
      cases j with
      | zero =>
        simp [listSwap]
      | succ m =>
        have hm : m < t.length := by
          simp at hj
          omega
        simp only [listSwap, List.getD_cons_succ, List.set_cons_zero, List.getD_cons_zero,
          List.set_cons_succ]
        exact set_getD_cons_perm t m x hm
    | succ k =>
      cases j with
      | zero =>
        have hk : k < t.length := by
          simp at hi
          omega
        simp only [listSwap, List.getD_cons_zero, List.getD_cons_succ, List.set_cons_succ,
          List.set_cons_zero]
        exact set_getD_cons_perm t k x hk
      | succ m =>
        have hk : k < t.length := by
          simp at hi
          omega
        have hm : m < t.length := by
          simp at hj
          omega
        simp only [listSwap, List.getD_cons_succ, List.set_cons_succ]
        exact List.Perm.cons x (ih k m hk hm)

/-- Max-heap condition at one node: each child that lies within the array
bounds is no larger than its parent. -/
def childOK (a : List Nat) (j : Nat) : Prop :=
  (2 * j + 1 < a.length → a.getD (2 * j + 1) 0 ≤ a.getD j 0) ∧
  (2 * j + 2 < a.length → a.getD (2 * j + 2) 0 ≤ a.getD j 0)

end Heap

namespace Heap

theorem heapifyGo_spec : ∀ (fuel : Nat) (a : List Nat) (i : Nat),
    a.length - i ≤ fuel → i < a.length → (∀ j, i < j → childOK a j) →
    (heapifyGo fuel a i a.length).length = a.length ∧
    List.Perm (heapifyGo fuel a i a.length) a ∧
    (∀ j, i ≤ j → childOK (heapifyGo fuel a i a.length) j) ∧
    (∀ p, p ≠ i → p ≤ 2 * i → (heapifyGo fuel a i a.length).getD p 0 = a.getD p 0) ∧
    (heapifyGo fuel a i a.length).getD i 0
      = a.getD (pickLargestChild a (2 * i + 1) (2 * i + 2) a.length i) 0 := by
  intro fuel
  induction fuel with
  | zero =>
    intro a i hfuel hi _
    omega
  | succ fuel ih =>
    intro a i hfuel hi hok
    have hge := pickLargestChild_ge a (2 * i + 1) (2 * i + 2) a.length i
    have hcases := pickLargestChild_cases a (2 * i + 1) (2 * i + 2) a.length i
    by_cases hL : pickLargestChild a (2 * i + 1) (2 * i + 2) a.length i = i
    · have hres : heapifyGo (fuel + 1) a i a.length = a := by
        simp only [heapifyGo, ne_eq, hL, not_true_eq_false, if_false]
      rw [hres]
      have hchild : childOK a i := by
        rw [hL] at hge
        exact ⟨hge.2.1, hge.2.2⟩
      refine ⟨rfl, List.Perm.refl a, ?_, fun p _ _ => rfl, by rw [hL]⟩
      intro j hj
      rcases Nat.eq_or_lt_of_le hj with h | h
      · rw [← h]
        exact hchild
      · exact hok j h
    · have hres : heapifyGo (fuel + 1) a i a.length
          = heapifyGo fuel
              (listSwap a i (pickLargestChild a (2 * i + 1) (2 * i + 2) a.length i))
              (pickLargestChild a (2 * i + 1) (2 * i + 2) a.length i) a.length := by
        simp only [heapifyGo, ne_eq, hL, not_false_eq_true, if_true]
      rw [hres]
      obtain ⟨L, hLeq⟩ : ∃ L, pickLargestChild a (2 * i + 1) (2 * i + 2) a.length i = L :=
        ⟨_, rfl⟩
      rw [hLeq] at hL hge hcases ⊢
      have hcases2 : L = 2 * i + 1 ∧ L < a.length ∨ L = 2 * i + 2 ∧ L < a.length := by
        rcases hcases with h | ⟨h1, h2⟩ | ⟨h1, h2⟩
        · exact absurd h hL
        · exact Or.inl ⟨h1, by omega⟩
        · exact Or.inr ⟨h1, by omega⟩
      have hLlt : L < a.length := by
        rcases hcases2 with ⟨_, h⟩ | ⟨_, h⟩ <;> exact h
      have hiL : i < L := by
        rcases hcases2 with ⟨h, _⟩ | ⟨h, _⟩ <;> omega
      have hblen : (listSwap a i L).length = a.length := listSwap_length a i L
      have hbi : (listSwap a i L).getD i 0 = a.getD L 0 :=
        listSwap_getD_fst a i L (by omega) hi
      have hbL : (listSwap a i L).getD L 0 = a.getD i 0 := listSwap_getD_snd a i L hLlt
      have hbother : ∀ p, p ≠ i → p ≠ L → (listSwap a i L).getD p 0 = a.getD p 0 :=
        fun p h1 h2 => listSwap_getD_other a i L p h1 h2
      have hbok : ∀ j, L < j → childOK (listSwap a i L) j := by
        intro j hj
        have h1 := hbother j (by omega) (by omega)
        have h2 := hbother (2 * j + 1) (by omega) (by omega)
        have h3 := hbother (2 * j + 2) (by omega) (by omega)
        have h4 := hok j (by omega)
        unfold childOK at h4 ⊢
        rw [hblen, h1, h2, h3]
        exact h4
      have hfuel2 : (listSwap a i L).length - L ≤ fuel := by
        rw [hblen]
        omega
      have hLblen : L < (listSwap a i L).length := by omega
      obtain ⟨rlen, rperm, rok, runch, rroot⟩ := ih (listSwap a i L) L hfuel2 hLblen hbok
      rw [hblen] at rlen rperm rok runch rroot
      have hri : (heapifyGo fuel (listSwap a i L) L a.length).getD i 0 = a.getD L 0 := by
        rw [runch i (by omega) (by omega), hbi]
      have hrootle : (heapifyGo fuel (listSwap a i L) L a.length).getD L 0 ≤ a.getD L 0 := by
        rcases pickLargestChild_cases (listSwap a i L) (2 * L + 1) (2 * L + 2) a.length L
          with hp | ⟨hp, hplt⟩ | ⟨hp, hplt⟩
        · rw [rroot, hp, hbL]
          exact hge.1
        · rw [rroot, hp, hbother _ (by omega) (by omega)]
          exact (hok L hiL).1 hplt
        · rw [rroot, hp, hbother _ (by omega) (by omega)]
          exact (hok L hiL).2 hplt
      refine ⟨rlen, List.Perm.trans rperm (listSwap_perm a i L hi hLlt), ?_, ?_, ?_⟩
      · intro j hj
        by_cases hjL : L ≤ j
        · exact rok j hjL
        · push_neg at hjL
          by_cases hji : j = i
          · subst hji
            constructor
            · intro hlt
              rw [rlen] at hlt
              rw [hri]
              by_cases hc : 2 * j + 1 = L
              · rw [hc]
                exact hrootle
              · have hL2 : L = 2 * j + 2 := by
                  rcases hcases2 with ⟨h, _⟩ | ⟨h, _⟩
                  · omega
                  · exact h
                rw [runch (2 * j + 1) (by omega) (by omega),
                  hbother _ (by omega) (by omega)]
                exact hge.2.1 hlt
            · intro hlt
              rw [rlen] at hlt
              rw [hri]
              by_cases hc : 2 * j + 2 = L
              · rw [hc]
                exact hrootle
              · have hL2 : L = 2 * j + 1 := by
                  rcases hcases2 with ⟨h, _⟩ | ⟨h, _⟩
                  · exact h
                  · omega
                rw [runch (2 * j + 2) (by omega) (by omega),
                  hbother _ (by omega) (by omega)]
                exact hge.2.2 hlt
          · have hij : i < j := by omega
            have hcne : ∀ c, (c = 2 * j + 1 ∨ c = 2 * j + 2) → c ≠ L := by
              intro c hc
              rcases hcases2 with ⟨h, _⟩ | ⟨h, _⟩ <;> rcases hc with h2 | h2 <;> omega
            have hj1 := hcne (2 * j + 1) (Or.inl rfl)
            have hj2 := hcne (2 * j + 2) (Or.inr rfl)
            have e0 : (heapifyGo fuel (listSwap a i L) L a.length).getD j 0 = a.getD j 0 := by
              rw [runch j (by omega) (by omega), hbother j (by omega) (by omega)]
            have e1 : (heapifyGo fuel (listSwap a i L) L a.length).getD (2 * j + 1) 0
                = a.getD (2 * j + 1) 0 := by
              rw [runch (2 * j + 1) hj1 (by omega), hbother _ (by omega) hj1]
            have e2 : (heapifyGo fuel (listSwap a i L) L a.length).getD (2 * j + 2) 0
                = a.getD (2 * j + 2) 0 := by
              rw [runch (2 * j + 2) hj2 (by omega), hbother _ (by omega) hj2]
            have h4 := hok j hij
            unfold childOK at h4 ⊢
            rw [rlen, e0, e1, e2]
            exact h4
      · intro p hpi hple
        rw [runch p (by omega) (by omega), hbother p hpi (by omega)]
      · exact hri

theorem heapifyNode_spec (a : List Nat) (i : Nat) (hi : i < a.length)
    (hok : ∀ j, i < j → childOK a j) :
    (heapifyNode a i a.length).length = a.length ∧
    List.Perm (heapifyNode a i a.length) a ∧
    (∀ j, i ≤ j → childOK (heapifyNode a i a.length) j) := by
  rw [heapifyNode_eq_go a.length a i a.length (by omega)]
  obtain ⟨h1, h2, h3, _, _⟩ := heapifyGo_spec a.length a i (by omega) hi hok
  exact ⟨h1, h2, h3⟩

theorem buildLoop_spec : ∀ (m : Nat) (a : List Nat), m ≤ a.length / 2 →
    (∀ j, m ≤ j → childOK a j) →
    (((List.range m).reverse).foldl (fun arr i => heapifyNode arr i arr.length) a).length
        = a.length ∧
    List.Perm (((List.range m).reverse).foldl (fun arr i => heapifyNode arr i arr.length) a) a ∧
    (∀ j, childOK (((List.range m).reverse).foldl
      (fun arr i => heapifyNode arr i arr.length) a) j) := by
  intro m
  induction m with
  | zero =>
    intro a _ hok
    exact ⟨rfl, List.Perm.refl a, fun j => hok j (Nat.zero_le j)⟩
  | succ m ih =>
    intro a hm hok
    have hfold : ((List.range (m + 1)).reverse).foldl
        (fun arr i => heapifyNode arr i arr.length) a
        = ((List.range m).reverse).foldl (fun arr i => heapifyNode arr i arr.length)
            (heapifyNode a m a.length) := by
      rw [List.range_succ, List.reverse_append]
      simp
    rw [hfold]
    have hmlt : m < a.length := by
      have := Nat.div_le_self a.length 2
      omega
    obtain ⟨blen, bperm, bok⟩ := heapifyNode_spec a m hmlt (fun j hj => hok j hj)
    obtain ⟨clen, cperm, cok⟩ := ih (heapifyNode a m a.length)
      (by rw [blen]; omega) (fun j hj => bok j hj)
    refine ⟨by rw [clen, blen], List.Perm.trans cperm bperm, cok⟩

/-- After buildMaxHeap the returned array is a permutation of the input with
unchanged length, and every node dominates both of its in-bounds children. -/
theorem buildMaxHeap_spec (a : List Nat) :
    (buildMaxHeap a).length = a.length ∧
    List.Perm (buildMaxHeap a) a ∧
    (∀ j, childOK (buildMaxHeap a) j) := by
  unfold buildMaxHeap
  apply buildLoop_spec (a.length / 2) a (Nat.le_refl _)
  intro j hj
  constructor
  · intro h
    omega
  · intro h
    omega

end Heap

namespace Heap

/-- Kind tags of the steps HeapSolver.extractMax records. -/
inductive HeapStepKind where
  | preExtractBuild : HeapStepKind
  | preExtractComplete : HeapStepKind
  | error : HeapStepKind
  | extractInit : HeapStepKind
  | extractSwapRoot : HeapStepKind
  | extractHeapifyStart : HeapStepKind
  | extractComplete : HeapStepKind
deriving DecidableEq

/-- One step of the extract-max trace: the kind tag and the full array
snapshot pushed with it. Description strings, highlight indices and the
stats snapshots are presentation only and omitted. -/
structure HeapStep where
  kind : HeapStepKind
  array : List Nat
deriving DecidableEq

/-- Return value of HeapSolver.extractMax. -/
structure ExtractResult where
  heap : List Nat
  steps : List HeapStep
  extractedValue : Option Nat
deriving DecidableEq

/-- Translation of HeapSolver.extractMax: push the pre-extract-build step,
build the max heap, push pre-extract-complete; on an empty array push an
error step and return extractedValue null; otherwise snapshot the root,
move the last element to the root, pop, heapify down from the root when the
heap is still non-empty, and push extract-complete. -/
def extractMax (a : List Nat) : ExtractResult :=
  let steps0 := [HeapStep.mk HeapStepKind.preExtractBuild a]
  let b := ((List.range (a.length / 2)).reverse).foldl
    (fun arr i => heapifyNode arr i arr.length) a
  let steps1 := steps0 ++ [⟨HeapStepKind.preExtractComplete, b⟩]
  if b.length = 0 then
    { heap := b, steps := steps1 ++ [⟨HeapStepKind.error, b⟩], extractedValue := none }
  else
    let maxV := b.getD 0 0
    let steps2 := steps1 ++ [⟨HeapStepKind.extractInit, b⟩]
    let c := (b.set 0 (b.getD (b.length - 1) 0)).dropLast
    let steps3 := steps2 ++ [⟨HeapStepKind.extractSwapRoot, c⟩]
    if 0 < c.length then
      let steps4 := steps3 ++ [⟨HeapStepKind.extractHeapifyStart, c⟩]
      let d := heapifyNode c 0 c.length
      { heap := d, steps := steps4 ++ [⟨HeapStepKind.extractComplete, d⟩],
        extractedValue := some maxV }
    else
      { heap := c, steps := steps3 ++ [⟨HeapStepKind.extractComplete, c⟩],
        extractedValue := some maxV }

/-- One entry of the expected-swap answer key extracted by
HeapSolver.getSwapSequence; validation uses only the two indices, the value
fields of the source entries play no role in it. -/
structure SwapPair where
  fromIdx : Nat
  toIdx : Nat
deriving DecidableEq

/-- Translation of HeapSolver.validateSwap: a swap index at or past the end
of the expected list is invalid, and otherwise the clicked pair must match
the expected pair in either order. Only the Boolean valid field is modelled;
the message is presentation. -/
def validateSwap (fromIndex toIndex : Nat) (expectedSwaps : List SwapPair)
    (swapIndex : Nat) : Bool :=
  if expectedSwaps.length ≤ swapIndex then false
  else
    let expected := expectedSwaps.getD swapIndex ⟨0, 0⟩
    (fromIndex == expected.fromIdx && toIndex == expected.toIdx) ||
      (fromIndex == expected.toIdx && toIndex == expected.fromIdx)

/-- Operation tag of a heap monk-mode level. -/
inductive HeapOperation where
  | build : HeapOperation
  | extract : HeapOperation
  | insert : HeapOperation
deriving DecidableEq

/-- User-side stats counters of heap monk mode. -/
structure UserStats where
  heapifyCalls : Nat
  swapCount : Nat
  recursiveCalls : Nat
deriving DecidableEq

/-- State of heap monk mode owned by the user: the user array, the index of
the next expected swap, and the stats counters. -/
structure MonkState where
  userArray : List Nat
  currentSwapIndex : Nat
  userStats : UserStats
deriving DecidableEq

/-- Translation of HeapMonkMode._attemptSwap: on a valid pair the swap is
applied to the user array, currentSwapIndex advances and the stats counters
update per the source heuristic; on an invalid pair only highlights and the
status message (presentation state) change, so the model state is returned
unchanged. -/
def attemptSwap (operation : HeapOperation) (expectedSwaps : List SwapPair)
    (st : MonkState) (fromIndex toIndex : Nat) : MonkState :=
  if validateSwap fromIndex toIndex expectedSwaps st.currentSwapIndex then
    let newArray := listSwap st.userArray fromIndex toIndex
    let newIndex := st.currentSwapIndex + 1
    let s1 := { st.userStats with swapCount := st.userStats.swapCount + 1 }
    let s2 :=
      match operation with
      | HeapOperation.build =>
        let s := if newIndex = 1 ∨ toIndex < fromIndex then
            { s1 with heapifyCalls := s1.heapifyCalls + 1 } else s1
        if toIndex ≠ fromIndex ∧ 0 < toIndex then
          { s with recursiveCalls := s.recursiveCalls + 1 } else s
      | _ =>
        if newIndex = 1 then { s1 with heapifyCalls := s1.heapifyCalls + 1 }
        else { s1 with recursiveCalls := s1.recursiveCalls + 1 }
    { userArray := newArray, currentSwapIndex := newIndex, userStats := s2 }
  else st

end Heap

namespace CSort

/-- Translation of CountingSortSolver._findMaximum: maxValue starts as
array[0] (0 for an empty array through the || 0 fallback) and the scan
replaces it by every strictly larger element. -/
def findMaximum (a : List Nat) : Nat :=
  a.foldl (fun m x => if m < x then x else m) (a.headD 0)

/-- Translation of CountingSortSolver._countOccurrences: one increment of
count[array[i]] per input element, in input order. -/
def countOccurrences (a : List Nat) (counts : List Nat) : List Nat :=
  a.foldl (fun c v => c.set v (c.getD v 0 + 1)) counts

/-- Translation of CountingSortSolver._calculateCumulativeCounts: for i from
1 to maxValue, count[i] += count[i-1]. -/
def calculateCumulativeCounts (maxValue : Nat) (counts : List Nat) : List Nat :=
  (List.range' 1 maxValue).foldl
    (fun c i => c.set i (c.getD i 0 + c.getD (i - 1) 0)) counts

/-- One iteration of the _buildOutputArray loop at input index i: read
count[value], place the value at output[count[value] - 1], then decrement
count[value]. -/
def outStep (a : List Nat) (co : List Nat × List (Option Nat)) (i : Nat) :
    List Nat × List (Option Nat) :=
  let value := a.getD i 0
  let countBefore := co.1.getD value 0
  let position := countBefore - 1
  (co.1.set value (countBefore - 1), co.2.set position (some value))

/-- Translation of CountingSortSolver._buildOutputArray: traverse the input
array from the last index down to index 0. -/
def buildOutputArray (a : List Nat) (counts : List Nat) (output : List (Option Nat)) :
    List Nat × List (Option Nat) :=
  ((List.range a.length).reverse).foldl (outStep a) (counts, output)

/-- Translation of CountingSortSolver.solve: find the maximum, create the
count array of size max+1 filled with zeros and the output array filled with
nulls, count occurrences, take cumulative counts, build the output and
return it as sortedArray. -/
def solve (a : List Nat) : List (Option Nat) :=
  let maxValue := findMaximum a
  let counts0 := List.replicate (maxValue + 1) 0
  let output0 := List.replicate a.length (none : Option Nat)
  let counts1 := countOccurrences a counts0
  let counts2 := calculateCumulativeCounts maxValue counts1
  (buildOutputArray a counts2 output0).2

theorem getD_set_eq {α : Type} (l : List α) (i : Nat) (v d : α) (h : i < l.length) :
    (l.set i v).getD i d = v := by
  simp [List.getD_eq_getElem?_getD, List.getElem?_set, h]

theorem getD_set_neq {α : Type} (l : List α) (i j : Nat) (v d : α) (h : i ≠ j) :
    (l.set i v).getD j d = l.getD j d := by
  simp [List.getD_eq_getElem?_getD, List.getElem?_set, h]

theorem foldlMax_ge (l : List Nat) : ∀ init : Nat,
    init ≤ l.foldl (fun m x => if m < x then x else m) init ∧
    ∀ x ∈ l, x ≤ l.foldl (fun m x => if m < x then x else m) init := by
  induction l with
  | nil =>
    intro init
    exact ⟨Nat.le_refl _, by simp⟩
  | cons y t ih =>
    intro init
    simp only [List.foldl_cons]
    obtain ⟨h1, h2⟩ := ih (if init < y then y else init)
    have hinit : init ≤ if init < y then y else init := by
      split <;> omega
    have hy : y ≤ if init < y then y else init := by
      split <;> omega
    refine ⟨by omega, ?_⟩
    intro x hx
    rcases List.mem_cons.mp hx with rfl | hx
    · omega
    · exact h2 x hx

theorem findMaximum_ge (a : List Nat) : ∀ x ∈ a, x ≤ findMaximum a :=
  (foldlMax_ge a (a.headD 0)).2

theorem countOccurrences_spec (a : List Nat) : ∀ counts : List Nat,
    (∀ x ∈ a, x < counts.length) →
    (countOccurrences a counts).length = counts.length ∧
    ∀ v, (countOccurrences a counts).getD v 0 = counts.getD v 0 + a.count v := by
  induction a with
  | nil =>
    intro counts _
    refine ⟨rfl, fun v => ?_⟩
    simp [countOccurrences]
  | cons x t ih =>
    intro counts hmem
    have hx : x < counts.length := hmem x (by simp)
    obtain ⟨hlen, hval⟩ := ih (counts.set x (counts.getD x 0 + 1))
      (by
        rw [List.length_set]
        intro y hy
        exact hmem y (by simp [hy]))
    have hfold : countOccurrences (x :: t) counts
        = countOccurrences t (counts.set x (counts.getD x 0 + 1)) := by
      simp [countOccurrences]
    rw [hfold]
    constructor
    · rw [hlen, List.length_set]
    · intro v
      rw [hval v]
      by_cases hvx : v = x
      · subst hvx
        rw [getD_set_eq _ _ _ _ hx]
        simp [List.count_cons]
        omega
      · rw [getD_set_neq _ _ _ _ _ (fun h => hvx h.symm)]
        simp [List.count_cons, fun h => hvx (Eq.symm h)]
        omega

/-- Cumulative count: the number of input elements with value at most v. -/
def cumCount (a : List Nat) (v : Nat) : Nat :=
  ∑ u ∈ Finset.range (v + 1), a.count u

theorem cumCount_succ (a : List Nat) (v : Nat) :
    cumCount a (v + 1) = cumCount a v + a.count (v + 1) :=
  Finset.sum_range_succ _ _

theorem count_le_cumCount (a : List Nat) (v : Nat) : a.count v ≤ cumCount a v := by
  unfold cumCount
  refine Finset.single_le_sum (f := fun u => a.count u) (fun i _ => Nat.zero_le _) ?_
  exact Finset.mem_range.mpr (by omega)

theorem cumCount_mono (a : List Nat) (v w : Nat) (h : v ≤ w) :
    cumCount a v ≤ cumCount a w :=
  Finset.sum_le_sum_of_subset (Finset.range_subset.mpr (by omega))

theorem cumCount_pred (a : List Nat) (v : Nat) (hv : 1 ≤ v) :
    cumCount a v = cumCount a (v - 1) + a.count v := by
  obtain ⟨v1, rfl⟩ : ∃ v1, v = v1 + 1 := ⟨v - 1, by omega⟩
  rw [cumCount_succ]
  simp

theorem cumCount_length (a : List Nat) (M : Nat) (h : ∀ x ∈ a, x ≤ M) :
    cumCount a M = a.length := by
  induction a with
  | nil => simp [cumCount]
  | cons x t ih =>
    have hx : x ≤ M := h x (by simp)
    have ht : ∀ y ∈ t, y ≤ M := fun y hy => h y (by simp [hy])
    unfold cumCount at *
    simp only [List.count_cons, beq_iff_eq]
    rw [Finset.sum_add_distrib, ih ht]
    have hsum : (∑ u ∈ Finset.range (M + 1), if (x == u) = true then 1 else 0) = 1 := by
      simp only [beq_iff_eq]
      rw [Finset.sum_ite_eq (Finset.range (M + 1)) x (fun _ => 1)]
      rw [if_pos (Finset.mem_range.mpr (by omega))]
    simp only [beq_iff_eq] at hsum
    rw [hsum]
    simp

theorem cumLoop_spec (counts : List Nat) (M : Nat) (hlen : counts.length = M + 1) :
    ∀ k, k ≤ M →
      ((List.range' 1 k).foldl
          (fun c i => c.set i (c.getD i 0 + c.getD (i - 1) 0)) counts).length = M + 1 ∧
      (∀ v, v ≤ k →
        ((List.range' 1 k).foldl
          (fun c i => c.set i (c.getD i 0 + c.getD (i - 1) 0)) counts).getD v 0
          = ∑ u ∈ Finset.range (v + 1), counts.getD u 0) ∧
      (∀ v, k < v →
        ((List.range' 1 k).foldl
          (fun c i => c.set i (c.getD i 0 + c.getD (i - 1) 0)) counts).getD v 0
          = counts.getD v 0) := by
  intro k
  induction k with
  | zero =>
    intro _
    refine ⟨hlen, ?_, fun v _ => rfl⟩
    intro v hv
    interval_cases v
    simp
  | succ k ih =>
    intro hk
    obtain ⟨ihlen, ihdone, ihtodo⟩ := ih (by omega)
    have hfold : (List.range' 1 (k + 1)).foldl
        (fun c i => c.set i (c.getD i 0 + c.getD (i - 1) 0)) counts
        = ((List.range' 1 k).foldl
            (fun c i => c.set i (c.getD i 0 + c.getD (i - 1) 0)) counts).set (k + 1)
          (((List.range' 1 k).foldl
            (fun c i => c.set i (c.getD i 0 + c.getD (i - 1) 0)) counts).getD (k + 1) 0 +
           ((List.range' 1 k).foldl
            (fun c i => c.set i (c.getD i 0 + c.getD (i - 1) 0)) counts).getD k 0) := by
      rw [List.range'_concat, List.foldl_append]
      simp
      rw [Nat.add_comm 1 k]
    rw [hfold]
    have hknew : ((List.range' 1 k).foldl
        (fun c i => c.set i (c.getD i 0 + c.getD (i - 1) 0)) counts).getD (k + 1) 0 +
        ((List.range' 1 k).foldl
          (fun c i => c.set i (c.getD i 0 + c.getD (i - 1) 0)) counts).getD k 0
        = ∑ u ∈ Finset.range (k + 2), counts.getD u 0 := by
      rw [ihtodo (k + 1) (by omega), ihdone k (by omega)]
      conv_rhs => rw [Finset.sum_range_succ]
      omega
    refine ⟨by rw [List.length_set, ihlen], ?_, ?_⟩
    · intro v hv
      by_cases hvk : v = k + 1
      · subst hvk
        rw [getD_set_eq _ _ _ _ (by omega), hknew]
      · rw [getD_set_neq _ _ _ _ _ (fun h => hvk h.symm)]
        exact ihdone v (by omega)
    · intro v hv
      rw [getD_set_neq _ _ _ _ _ (by omega)]
      exact ihtodo v (by omega)

/-- Invariant of the output-building loop when the input indices k..n-1 have
already been processed: each count slot v holds cumCount v minus the
occurrences of v in the processed suffix, and for each v the output slots
from that count down position up to cumCount v - 1 already hold v. -/
def OutInv (a : List Nat) (M k : Nat) (co : List Nat × List (Option Nat)) : Prop :=
  co.1.length = M + 1 ∧
  co.2.length = a.length ∧
  (∀ v, v ≤ M → co.1.getD v 0 = cumCount a v - (a.drop k).count v) ∧
  (∀ v, v ≤ M → ∀ p, cumCount a v - (a.drop k).count v ≤ p → p < cumCount a v →
    co.2.getD p none = some v)

theorem count_drop_le (a : List Nat) (k v : Nat) : (a.drop k).count v ≤ a.count v := by
  conv_rhs => rw [← List.take_append_drop k a]
  rw [List.count_append]
  omega

theorem outStep_inv (a : List Nat) (M k : Nat) (hM : ∀ x ∈ a, x ≤ M)
    (hk : k < a.length) (co : List Nat × List (Option Nat))
    (hinv : OutInv a M (k + 1) co) : OutInv a M k (outStep a co k) := by
  obtain ⟨hclen, holen, hcval, hoval⟩ := hinv
  have hgetk : a.getD k 0 = a[k] := List.getD_eq_getElem a 0 hk
  have hvmem : a.getD k 0 ∈ a := by
    rw [hgetk]
    exact List.getElem_mem hk
  have hvM : a.getD k 0 ≤ M := hM _ hvmem
  have hdrop : a.drop k = a.getD k 0 :: a.drop (k + 1) := by
    rw [hgetk]
    exact List.drop_eq_getElem_cons hk
  have hdropcount : ∀ w, (a.drop k).count w
      = (a.drop (k + 1)).count w + if a.getD k 0 = w then 1 else 0 := by
    intro w
    rw [hdrop, List.count_cons]
    simp
  have hcountv : (a.drop (k + 1)).count (a.getD k 0) + 1 ≤ a.count (a.getD k 0) := by
    have h1 := count_drop_le a k (a.getD k 0)
    have h2 := hdropcount (a.getD k 0)
    rw [if_pos rfl] at h2
    omega
  have hcountC := count_le_cumCount a (a.getD k 0)
  have hcnt : co.1.getD (a.getD k 0) 0
      = cumCount a (a.getD k 0) - (a.drop (k + 1)).count (a.getD k 0) :=
    hcval _ hvM
  have htotal : cumCount a M = a.length := cumCount_length a M hM
  have hCvn : cumCount a (a.getD k 0) ≤ a.length := by
    rw [← htotal]
    exact cumCount_mono a _ M hvM
  have hposn : co.1.getD (a.getD k 0) 0 - 1 < a.length := by omega
  have hposlt : co.1.getD (a.getD k 0) 0 - 1 < cumCount a (a.getD k 0) := by omega
  refine ⟨?_, ?_, ?_, ?_⟩
  · rw [outStep, List.length_set, hclen]
  · rw [outStep, List.length_set, holen]
  · intro v hv
    show (co.1.set (a.getD k 0) (co.1.getD (a.getD k 0) 0 - 1)).getD v 0
        = cumCount a v - (a.drop k).count v
    by_cases hvv : v = a.getD k 0
    · subst hvv
      rw [getD_set_eq _ _ _ _ (by rw [hclen]; omega), hdropcount, if_pos rfl, hcnt]
      omega
    · rw [getD_set_neq _ _ _ _ _ (fun h => hvv h.symm), hdropcount,
        if_neg (fun h => hvv h.symm), hcval v hv]
      omega
  · intro v hv p hp1 hp2
    show (co.2.set (co.1.getD (a.getD k 0) 0 - 1) (some (a.getD k 0))).getD p none = some v
    by_cases hvv : v = a.getD k 0
    · subst hvv
      rw [hdropcount, if_pos rfl] at hp1
      by_cases hpp : p = co.1.getD (a.getD k 0) 0 - 1
      · subst hpp
        rw [getD_set_eq _ _ _ _ (by rw [holen]; omega)]
      · rw [getD_set_neq _ _ _ _ _ (fun h => hpp h.symm)]
        refine hoval _ hv p ?_ hp2
        rw [hcnt] at hpp
        omega
    · have hge1 : 1 ≤ a.getD k 0 ∨ v < a.getD k 0 ∨ a.getD k 0 < v := by omega
      have hpos_ne : p ≠ co.1.getD (a.getD k 0) 0 - 1 := by
        rcases Nat.lt_or_ge v (a.getD k 0) with hlt | hge
        · -- v below the placed value: p < cumCount v which is at most the placed position
          have hped : cumCount a (a.getD k 0)
              = cumCount a (a.getD k 0 - 1) + a.count (a.getD k 0) :=
            cumCount_pred a _ (by omega)
          have hmono : cumCount a v ≤ cumCount a (a.getD k 0 - 1) :=
            cumCount_mono a v _ (by omega)
          rw [hcnt]
          omega
        · have hgt : a.getD k 0 < v := by omega
          have hped : cumCount a v = cumCount a (v - 1) + a.count v :=
            cumCount_pred a v (by omega)
          have hmono : cumCount a (a.getD k 0) ≤ cumCount a (v - 1) :=
            cumCount_mono a _ _ (by omega)
          have hdc := count_drop_le a k v
          rw [hcnt]
          omega
      rw [getD_set_neq _ _ _ _ _ (fun h => hpos_ne h.symm)]
      rw [hdropcount, if_neg (fun h => hvv h.symm)] at hp1
      exact hoval v hv p (by omega) hp2

theorem outLoop_inv (a : List Nat) (M : Nat) (hM : ∀ x ∈ a, x ≤ M) :
    ∀ k, k ≤ a.length → ∀ co, OutInv a M k co →
      OutInv a M 0 (((List.range k).reverse).foldl (outStep a) co) := by
  intro k
  induction k with
  | zero =>
    intro _ co hco
    simpa using hco
  | succ k ih =>
    intro hk co hco
    have hfold : ((List.range (k + 1)).reverse).foldl (outStep a) co
        = ((List.range k).reverse).foldl (outStep a) (outStep a co k) := by
      rw [List.range_succ, List.reverse_append]
      simp
    rw [hfold]
    exact ih (by omega) _ (outStep_inv a M k hM (by omega) co hco)

end CSort

namespace CSort

/-- Canonical sorted arrangement of the input multiset: all occurrences of
0, then all occurrences of 1, and so on up to v. -/
def sortedUpTo (a : List Nat) : Nat → List Nat
  | 0 => List.replicate (a.count 0) 0
  | v + 1 => sortedUpTo a v ++ List.replicate (a.count (v + 1)) (v + 1)

theorem sortedUpTo_length (a : List Nat) : ∀ v, (sortedUpTo a v).length = cumCount a v := by
  intro v
  induction v with
  | zero => simp [sortedUpTo, cumCount]
  | succ v ih =>
    simp only [sortedUpTo, List.length_append, List.length_replicate, ih, cumCount_succ]

theorem sortedUpTo_mem (a : List Nat) : ∀ v x, x ∈ sortedUpTo a v → x ≤ v := by
  intro v
  induction v with
  | zero =>
    intro x hx
    simp only [sortedUpTo] at hx
    rw [List.eq_of_mem_replicate hx]
  | succ v ih =>
    intro x hx
    simp only [sortedUpTo, List.mem_append] at hx
    rcases hx with hx | hx
    · exact Nat.le_succ_of_le (ih x hx)
    · rw [List.eq_of_mem_replicate hx]

theorem sortedUpTo_sorted (a : List Nat) : ∀ v, List.Sorted (· ≤ ·) (sortedUpTo a v) := by
  intro v
  induction v with
  | zero =>
    simp only [sortedUpTo, List.Sorted]
    exact List.pairwise_replicate.mpr (Or.inr (Nat.le_refl 0))
  | succ v ih =>
    simp only [sortedUpTo, List.Sorted]
    rw [List.pairwise_append]
    refine ⟨ih, List.pairwise_replicate.mpr (Or.inr (Nat.le_refl _)), ?_⟩
    intro x hx y hy
    rw [List.eq_of_mem_replicate hy]
    exact Nat.le_succ_of_le (sortedUpTo_mem a v x hx)

theorem sortedUpTo_count (a : List Nat) : ∀ v y,
    (sortedUpTo a v).count y = if y ≤ v then a.count y else 0 := by
  intro v
  induction v with
  | zero =>
    intro y
    simp only [sortedUpTo, List.count_replicate]
    by_cases hy : y = 0
    · subst hy
      simp
    · rw [if_neg (by simpa using fun h => hy h.symm), if_neg (by omega)]
  | succ v ih =>
    intro y
    simp only [sortedUpTo, List.count_append, ih y, List.count_replicate]
    by_cases h2 : y = v + 1
    · subst h2
      rw [if_neg (by omega), if_pos (by simp), if_pos (by omega)]
      simp
    · have hne : ¬((v + 1 == y) = true) := by
        simp only [beq_iff_eq]
        omega
      rw [if_neg hne]
      by_cases h1 : y ≤ v
      · rw [if_pos h1, if_pos (by omega)]
        omega
      · rw [if_neg h1, if_neg (by omega)]

theorem sortedUpTo_perm (a : List Nat) (M : Nat) (hM : ∀ x ∈ a, x ≤ M) :
    List.Perm (sortedUpTo a M) a := by
  rw [List.perm_iff_count]
  intro y
  rw [sortedUpTo_count a M y]
  by_cases hy : y ≤ M
  · rw [if_pos hy]
  · rw [if_neg hy]
    symm
    rw [List.count_eq_zero]
    intro hmem
    exact hy (hM y hmem)

theorem sortedUpTo_getD (a : List Nat) : ∀ v w p, w ≤ v →
    cumCount a w - a.count w ≤ p → p < cumCount a w →
    (sortedUpTo a v).getD p 0 = w := by
  intro v
  induction v with
  | zero =>
    intro w p hw hp1 hp2
    interval_cases w
    have hlen : p < (sortedUpTo a 0).length := by
      rw [sortedUpTo_length]
      exact hp2
    rw [List.getD_eq_getElem _ _ hlen]
    simp only [sortedUpTo] at hlen ⊢
    rw [List.getElem_replicate]
  | succ v ih =>
    intro w p hw hp1 hp2
    by_cases hwv : w ≤ v
    · have hplen : p < (sortedUpTo a v).length := by
        rw [sortedUpTo_length]
        exact Nat.lt_of_lt_of_le hp2 (cumCount_mono a w v hwv)
      simp only [sortedUpTo]
      rw [List.getD_append _ _ _ _ hplen]
      exact ih w p hwv hp1 hp2
    · have hwv2 : w = v + 1 := by omega
      subst hwv2
      have hCpred : cumCount a (v + 1) = cumCount a v + a.count (v + 1) := cumCount_succ a v
      have hplen : (sortedUpTo a v).length ≤ p := by
        rw [sortedUpTo_length]
        omega
      simp only [sortedUpTo]
      rw [List.getD_append_right _ _ _ _ hplen]
      have hlt : p - (sortedUpTo a v).length < a.count (v + 1) := by
        rw [sortedUpTo_length]
        omega
      rw [List.getD_eq_getElem _ _ (by rw [List.length_replicate]; exact hlt)]
      rw [List.getElem_replicate]

theorem coverage (a : List Nat) : ∀ M p, p < cumCount a M →
    ∃ v, v ≤ M ∧ cumCount a v - a.count v ≤ p ∧ p < cumCount a v := by
  intro M
  induction M with
  | zero =>
    intro p hp
    refine ⟨0, Nat.le_refl 0, ?_, hp⟩
    have h0 : cumCount a 0 = a.count 0 := by
      simp [cumCount]
    omega
  | succ M ih =>
    intro p hp
    by_cases hpM : p < cumCount a M
    · obtain ⟨v, h1, h2, h3⟩ := ih p hpM
      exact ⟨v, by omega, h2, h3⟩
    · refine ⟨M + 1, Nat.le_refl _, ?_, hp⟩
      rw [cumCount_succ]
      omega

/-- Full characterization of the counting-sort output: it is the canonical
sorted arrangement of the input, each entry wrapped in some. -/
theorem solve_eq_sorted (a : List Nat) :
    solve a = (sortedUpTo a (findMaximum a)).map some := by
  have hM := findMaximum_ge a
  have hcnt := countOccurrences_spec a (List.replicate (findMaximum a + 1) 0)
    (by
      rw [List.length_replicate]
      intro x hx
      have := hM x hx
      omega)
  obtain ⟨hcntlen, hcntval⟩ := hcnt
  rw [List.length_replicate] at hcntlen
  have hcntval2 : ∀ v, (countOccurrences a (List.replicate (findMaximum a + 1) 0)).getD v 0
      = a.count v := by
    intro v
    rw [hcntval v]
    by_cases hv : v < findMaximum a + 1
    · rw [List.getD_eq_getElem _ _ (by rw [List.length_replicate]; exact hv)]
      rw [List.getElem_replicate]
      omega
    · rw [List.getD_eq_default _ _ (by rw [List.length_replicate]; omega)]
      omega
  obtain ⟨hc2len, hc2done, _⟩ := cumLoop_spec
    (countOccurrences a (List.replicate (findMaximum a + 1) 0)) (findMaximum a) hcntlen
    (findMaximum a) (Nat.le_refl _)
  have hc2val : ∀ v, v ≤ findMaximum a →
      (calculateCumulativeCounts (findMaximum a)
        (countOccurrences a (List.replicate (findMaximum a + 1) 0))).getD v 0
      = cumCount a v := by
    intro v hv
    unfold calculateCumulativeCounts
    rw [hc2done v hv]
    unfold cumCount
    refine Finset.sum_congr rfl ?_
    intro u _
    rw [hcntval2 u]
  have hinvinit : OutInv a (findMaximum a) a.length
      (calculateCumulativeCounts (findMaximum a)
        (countOccurrences a (List.replicate (findMaximum a + 1) 0)),
       List.replicate a.length (none : Option Nat)) := by
    refine ⟨?_, by rw [List.length_replicate], ?_, ?_⟩
    · unfold calculateCumulativeCounts
      exact hc2len
    · intro v hv
      rw [hc2val v hv]
      simp
    · intro v hv p hp1 hp2
      simp at hp1 hp2
      omega
  have hfinal := outLoop_inv a (findMaximum a) hM a.length (Nat.le_refl _) _ hinvinit
  obtain ⟨_, hflen, _, hfval⟩ := hfinal
  simp only [List.drop_zero] at hfval
  have hsolve : solve a = (((List.range a.length).reverse).foldl (outStep a)
      (calculateCumulativeCounts (findMaximum a)
        (countOccurrences a (List.replicate (findMaximum a + 1) 0)),
       List.replicate a.length (none : Option Nat))).2 := by
    rfl
  rw [hsolve]
  have htotal : cumCount a (findMaximum a) = a.length := cumCount_length a _ hM
  apply List.ext_getElem
  · rw [hflen, List.length_map, sortedUpTo_length, htotal]
  · intro p h1 h2
    rw [hflen] at h1
    obtain ⟨v, hv1, hv2, hv3⟩ := coverage a (findMaximum a) p (by omega)
    have hleft : (((List.range a.length).reverse).foldl (outStep a)
        (calculateCumulativeCounts (findMaximum a)
          (countOccurrences a (List.replicate (findMaximum a + 1) 0)),
         List.replicate a.length (none : Option Nat))).2[p] = some v := by
      rw [← List.getD_eq_getElem _ none (by rw [hflen]; exact h1)]
      exact hfval v hv1 p hv2 hv3
    have hgd : (sortedUpTo a (findMaximum a)).getD p 0 = v :=
      sortedUpTo_getD a (findMaximum a) v p hv1 hv2 hv3
    have hplen2 : p < (sortedUpTo a (findMaximum a)).length := by
      rw [sortedUpTo_length]
      omega
    rw [List.getD_eq_getElem _ _ hplen2] at hgd
    rw [hleft, List.getElem_map, hgd]

end CSort

namespace Strassen

/-- Entry access A[i][j] on a matrix stored as a list of rows, with 0 for
out-of-range indices. -/
def mget (A : List (List Int)) (i j : Nat) : Int :=
  (A.getD i []).getD j 0

/-- Square matrix of size n built row by row from an entry function, the
shape produced by the source's nested construction loops. -/
def mkMat (n : Nat) (f : Nat → Nat → Int) : List (List Int) :=
  (List.range n).map (fun i => (List.range n).map (fun j => f i j))

/-- Translation of StrassenSolver._addMatrices with n = A.length. -/
def addMatrices (A B : List (List Int)) : List (List Int) :=
  mkMat A.length (fun i j => mget A i j + mget B i j)

/-- Translation of StrassenSolver._subtractMatrices with n = A.length. -/
def subtractMatrices (A B : List (List Int)) : List (List Int) :=
  mkMat A.length (fun i j => mget A i j - mget B i j)

/-- Quadrants of _splitMatrix: row i of M11 is M[i].slice(0, mid), of M12 is
M[i].slice(mid), of M21 is M[i+mid].slice(0, mid), of M22 is
M[i+mid].slice(mid), for i < mid. -/
def splitM11 (M : List (List Int)) (mid : Nat) : List (List Int) :=
  (M.take mid).map (fun r => r.take mid)

/-- Top-right quadrant of _splitMatrix. -/
def splitM12 (M : List (List Int)) (mid : Nat) : List (List Int) :=
  (M.take mid).map (fun r => r.drop mid)

/-- Bottom-left quadrant of _splitMatrix. -/
def splitM21 (M : List (List Int)) (mid : Nat) : List (List Int) :=
  (M.drop mid).map (fun r => r.take mid)

/-- Bottom-right quadrant of _splitMatrix. -/
def splitM22 (M : List (List Int)) (mid : Nat) : List (List Int) :=
  (M.drop mid).map (fun r => r.drop mid)

/-- Translation of _combineQuadrants: a matrix of size 2 * C11.length whose
quadrants are the four argument matrices. -/
def combineQuadrants (C11 C12 C21 C22 : List (List Int)) : List (List Int) :=
  mkMat (C11.length * 2) (fun i j =>
    if i < C11.length then
      if j < C11.length then mget C11 i j else mget C12 i (j - C11.length)
    else
      if j < C11.length then mget C21 (i - C11.length) j
      else mget C22 (i - C11.length) (j - C11.length))

/-- Translation of the exported naiveMultiply: triple loop accumulating
result[i][j] += A[i][k] * B[k][j]. -/
def naiveMultiply (A B : List (List Int)) : List (List Int) :=
  mkMat A.length (fun i j =>
    (List.range A.length).foldl (fun acc k => acc + mget A i k * mget B k j) 0)

/-- Translation of StrassenSolver._strassen2x2: the seven unrolled scalar
Strassen products and the combined 2 by 2 result. -/
def strassen2x2 (A B : List (List Int)) : List (List Int) :=
  let a := mget A 0 0
  let b := mget A 0 1
  let c := mget A 1 0
  let d := mget A 1 1
  let e := mget B 0 0
  let f := mget B 0 1
  let g := mget B 1 0
  let h := mget B 1 1
  let M1 := (a + d) * (e + h)
  let M2 := (c + d) * e
  let M3 := a * (f - h)
  let M4 := d * (g - e)
  let M5 := (a + b) * h
  let M6 := (c - a) * (e + f)
  let M7 := (b - d) * (g + h)
  [[M1 + M4 - M5 + M7, M3 + M5], [M2 + M4, M1 - M2 + M3 + M6]]

theorem mkMat_length (n : Nat) (f : Nat → Nat → Int) : (mkMat n f).length = n := by
  simp [mkMat]

theorem addMatrices_length (A B : List (List Int)) :
    (addMatrices A B).length = A.length := by
  simp [addMatrices, mkMat]

theorem subtractMatrices_length (A B : List (List Int)) :
    (subtractMatrices A B).length = A.length := by
  simp [subtractMatrices, mkMat]

theorem splitM11_length (M : List (List Int)) (mid : Nat) :
    (splitM11 M mid).length = min mid M.length := by
  simp [splitM11]

theorem splitM12_length (M : List (List Int)) (mid : Nat) :
    (splitM12 M mid).length = min mid M.length := by
  simp [splitM12]

theorem splitM21_length (M : List (List Int)) (mid : Nat) :
    (splitM21 M mid).length = M.length - mid := by
  simp [splitM21]

theorem splitM22_length (M : List (List Int)) (mid : Nat) :
    (splitM22 M mid).length = M.length - mid := by
  simp [splitM22]

/-- Translation of StrassenSolver._strassen: scalar multiply at size 1, the
unrolled 2 by 2 Strassen at size 2, and otherwise split into quadrants,
recurse for the seven products and combine. On a 0 by 0 matrix the source
recurses forever (splitting an empty matrix yields empty quadrants), so the
model returns the empty matrix there to stay total; the documented behaviour
only concerns power-of-two sizes, which never reach that branch. -/
def strassen (A B : List (List Int)) : List (List Int) :=
  if h0 : A.length = 0 then []
  else if h1 : A.length = 1 then [[mget A 0 0 * mget B 0 0]]
  else if h2 : A.length = 2 then strassen2x2 A B
  else
    let mid := A.length / 2
    let M1 := strassen (addMatrices (splitM11 A mid) (splitM22 A mid))
      (addMatrices (splitM11 B mid) (splitM22 B mid))
    let M2 := strassen (addMatrices (splitM21 A mid) (splitM22 A mid)) (splitM11 B mid)
    let M3 := strassen (splitM11 A mid) (subtractMatrices (splitM12 B mid) (splitM22 B mid))
    let M4 := strassen (splitM22 A mid) (subtractMatrices (splitM21 B mid) (splitM11 B mid))
    let M5 := strassen (addMatrices (splitM11 A mid) (splitM12 A mid)) (splitM22 B mid)
    let M6 := strassen (subtractMatrices (splitM21 A mid) (splitM11 A mid))
      (addMatrices (splitM11 B mid) (splitM12 B mid))
    let M7 := strassen (subtractMatrices (splitM12 A mid) (splitM22 A mid))
      (addMatrices (splitM21 B mid) (splitM22 B mid))
    let C11 := addMatrices (subtractMatrices (addMatrices M1 M4) M5) M7
    let C12 := addMatrices M3 M5
    let C21 := addMatrices M2 M4
    let C22 := addMatrices (subtractMatrices (addMatrices M1 M3) M2) M6
    combineQuadrants C11 C12 C21 C22
termination_by A.length
decreasing_by
  all_goals simp only [addMatrices_length, subtractMatrices_length, splitM11_length,
    splitM12_length, splitM21_length, splitM22_length]
  all_goals omega

end Strassen

namespace Strassen

/-- Well-formed square matrix of size n. -/
def WF (n : Nat) (A : List (List Int)) : Prop :=
  A.length = n ∧ ∀ r ∈ A, r.length = n

theorem mget_mkMat (n : Nat) (f : Nat → Nat → Int) (i j : Nat) (hi : i < n) (hj : j < n) :
    mget (mkMat n f) i j = f i j := by
  simp [mget, mkMat, List.getD_eq_getElem?_getD, List.getElem?_map, List.getElem?_range, hi, hj]

theorem WF_mkMat (n : Nat) (f : Nat → Nat → Int) : WF n (mkMat n f) := by
  refine ⟨mkMat_length n f, ?_⟩
  intro r hr
  simp only [mkMat, List.mem_map, List.mem_range] at hr
  obtain ⟨i, _, rfl⟩ := hr
  simp

theorem mget_add (A B : List (List Int)) (i j : Nat) (hi : i < A.length)
    (hj : j < A.length) : mget (addMatrices A B) i j = mget A i j + mget B i j :=
  mget_mkMat A.length _ i j hi hj

theorem mget_sub (A B : List (List Int)) (i j : Nat) (hi : i < A.length)
    (hj : j < A.length) : mget (subtractMatrices A B) i j = mget A i j - mget B i j :=
  mget_mkMat A.length _ i j hi hj

theorem getD_getD_eq_getElem? (M : List (List Int)) (i j : Nat) :
    mget M i j = ((M[i]?.getD [])[j]?).getD 0 := by
  unfold mget
  rw [List.getD_eq_getElem?_getD, List.getD_eq_getElem?_getD]

theorem mget_splitM11 (M : List (List Int)) (mid i j : Nat) (hi : i < mid) (hj : j < mid) :
    mget (splitM11 M mid) i j = mget M i j := by
  rw [getD_getD_eq_getElem?, getD_getD_eq_getElem?]
  unfold splitM11
  rw [List.getElem?_map, List.getElem?_take_of_lt hi]
  cases hM : M[i]? with
  | none => simp
  | some row =>
    simp only [Option.map_some', Option.getD_some]
    rw [List.getElem?_take_of_lt hj]

theorem mget_splitM12 (M : List (List Int)) (mid i j : Nat) (hi : i < mid) :
    mget (splitM12 M mid) i j = mget M i (mid + j) := by
  rw [getD_getD_eq_getElem?, getD_getD_eq_getElem?]
  unfold splitM12
  rw [List.getElem?_map, List.getElem?_take_of_lt hi]
  cases hM : M[i]? with
  | none => simp
  | some row =>
    simp only [Option.map_some', Option.getD_some]
    rw [List.getElem?_drop]

theorem mget_splitM21 (M : List (List Int)) (mid i j : Nat) (hj : j < mid) :
    mget (splitM21 M mid) i j = mget M (mid + i) j := by
  rw [getD_getD_eq_getElem?, getD_getD_eq_getElem?]
  unfold splitM21
  rw [List.getElem?_map, List.getElem?_drop]
  cases hM : M[mid + i]? with
  | none => simp
  | some row =>
    simp only [Option.map_some', Option.getD_some]
    rw [List.getElem?_take_of_lt hj]

theorem mget_splitM22 (M : List (List Int)) (mid i j : Nat) :
    mget (splitM22 M mid) i j = mget M (mid + i) (mid + j) := by
  rw [getD_getD_eq_getElem?, getD_getD_eq_getElem?]
  unfold splitM22
  rw [List.getElem?_map, List.getElem?_drop]
  cases hM : M[mid + i]? with
  | none => simp
  | some row =>
    simp only [Option.map_some', Option.getD_some]
    rw [List.getElem?_drop]

theorem foldl_add_sum (f : Nat → Int) : ∀ n : Nat, ∀ init : Int,
    (List.range n).foldl (fun acc k => acc + f k) init
      = init + ∑ k ∈ Finset.range n, f k := by
  intro n
  induction n with
  | zero =>
    intro init
    simp
  | succ n ih =>
    intro init
    rw [List.range_succ, List.foldl_append, ih init]
    simp only [List.foldl_cons, List.foldl_nil, Finset.sum_range_succ]
    ring

theorem mget_naive (A B : List (List Int)) (i j : Nat) (hi : i < A.length)
    (hj : j < A.length) :
    mget (naiveMultiply A B) i j
      = ∑ k ∈ Finset.range A.length, mget A i k * mget B k j := by
  unfold naiveMultiply
  rw [mget_mkMat _ _ i j hi hj, foldl_add_sum]
  ring

theorem naive_length (A B : List (List Int)) : (naiveMultiply A B).length = A.length :=
  mkMat_length _ _

theorem WF_naive (A B : List (List Int)) (n : Nat) (hA : A.length = n) :
    WF n (naiveMultiply A B) := by
  rw [← hA]
  exact WF_mkMat _ _

theorem matEq_of_mget (A B : List (List Int)) (n : Nat) (hA : WF n A) (hB : WF n B)
    (h : ∀ i j, i < n → j < n → mget A i j = mget B i j) : A = B := by
  obtain ⟨hAlen, hArows⟩ := hA
  obtain ⟨hBlen, hBrows⟩ := hB
  apply List.ext_getElem (by omega)
  intro i h1 h2
  apply List.ext_getElem
  · rw [hArows A[i] (List.getElem_mem h1), hBrows B[i] (List.getElem_mem h2)]
  · intro j hj1 hj2
    have hi : i < n := by omega
    have hjn : j < n := by
      rw [hArows A[i] (List.getElem_mem h1)] at hj1
      exact hj1
    have := h i j hi hjn
    unfold mget at this
    have e1 : A.getD i [] = A[i] := List.getD_eq_getElem A [] h1
    have e2 : B.getD i [] = B[i] := List.getD_eq_getElem B [] h2
    rw [e1, e2] at this
    rw [List.getD_eq_getElem _ _ hj1, List.getD_eq_getElem _ _ hj2] at this
    exact this

theorem sum_range_add (f : Nat → Int) (m : Nat) : ∀ n : Nat,
    ∑ i ∈ Finset.range (m + n), f i
      = (∑ i ∈ Finset.range m, f i) + ∑ i ∈ Finset.range n, f (m + i) := by
  intro n
  induction n with
  | zero => simp
  | succ n ih =>
    rw [← Nat.add_assoc, Finset.sum_range_succ, ih, Finset.sum_range_succ]
    ring

end Strassen

namespace Strassen

theorem WF_strassen2x2 (A B : List (List Int)) : WF 2 (strassen2x2 A B) := by
  refine ⟨rfl, ?_⟩
  intro r hr
  simp only [strassen2x2, List.mem_cons, List.not_mem_nil, or_false] at hr
  rcases hr with rfl | rfl
  · rfl
  · rfl

theorem WF_add (A B : List (List Int)) (n : Nat) (hA : A.length = n) :
    WF n (addMatrices A B) := by
  rw [← hA]
  exact WF_mkMat _ _

theorem WF_sub (A B : List (List Int)) (n : Nat) (hA : A.length = n) :
    WF n (subtractMatrices A B) := by
  rw [← hA]
  exact WF_mkMat _ _

theorem WF_splitM11 (M : List (List Int)) (m : Nat) (h : WF (m + m) M) :
    WF m (splitM11 M m) := by
  obtain ⟨hlen, hrows⟩ := h
  constructor
  · rw [splitM11_length, hlen]
    omega
  · intro r hr
    simp only [splitM11, List.mem_map] at hr
    obtain ⟨row, hrow, rfl⟩ := hr
    rw [List.length_take, hrows row (List.mem_of_mem_take hrow)]
    omega

theorem WF_splitM12 (M : List (List Int)) (m : Nat) (h : WF (m + m) M) :
    WF m (splitM12 M m) := by
  obtain ⟨hlen, hrows⟩ := h
  constructor
  · rw [splitM12_length, hlen]
    omega
  · intro r hr
    simp only [splitM12, List.mem_map] at hr
    obtain ⟨row, hrow, rfl⟩ := hr
    rw [List.length_drop, hrows row (List.mem_of_mem_take hrow)]
    omega

theorem WF_splitM21 (M : List (List Int)) (m : Nat) (h : WF (m + m) M) :
    WF m (splitM21 M m) := by
  obtain ⟨hlen, hrows⟩ := h
  constructor
  · rw [splitM21_length, hlen]
    omega
  · intro r hr
    simp only [splitM21, List.mem_map] at hr
    obtain ⟨row, hrow, rfl⟩ := hr
    rw [List.length_take, hrows row (List.mem_of_mem_drop hrow)]
    omega

theorem WF_splitM22 (M : List (List Int)) (m : Nat) (h : WF (m + m) M) :
    WF m (splitM22 M m) := by
  obtain ⟨hlen, hrows⟩ := h
  constructor
  · rw [splitM22_length, hlen]
    omega
  · intro r hr
    simp only [splitM22, List.mem_map] at hr
    obtain ⟨row, hrow, rfl⟩ := hr
    rw [List.length_drop, hrows row (List.mem_of_mem_drop hrow)]
    omega

/-- Block decomposition of one entry of the naive product of two matrices of
size m + m. -/
theorem naive_block (A B : List (List Int)) (m : Nat) (hA : A.length = m + m)
    (i j : Nat) (hi : i < m + m) (hj : j < m + m) :
    mget (naiveMultiply A B) i j
      = (∑ p ∈ Finset.range m, mget A i p * mget B p j)
        + ∑ p ∈ Finset.range m, mget A i (m + p) * mget B (m + p) j := by
  rw [mget_naive A B i j (by omega) (by omega), hA]
  exact sum_range_add (fun p => mget A i p * mget B p j) m m

end Strassen

namespace Strassen

theorem mget_add2 (X Y : List (List Int)) (m i j : Nat) (hX : X.length = m)
    (hi : i < m) (hj : j < m) :
    mget (addMatrices X Y) i j = mget X i j + mget Y i j :=
  mget_add X Y i j (by omega) (by omega)

theorem mget_sub2 (X Y : List (List Int)) (m i j : Nat) (hX : X.length = m)
    (hi : i < m) (hj : j < m) :
    mget (subtractMatrices X Y) i j = mget X i j - mget Y i j :=
  mget_sub X Y i j (by omega) (by omega)

set_option maxHeartbeats 1000000 in
/-- Entry of the combined C11 quadrant (M1 + M4 - M5 + M7, with the recursive
products replaced by naive multiplications) equals the top-left block of the
full product. -/
theorem quadTL (A B : List (List Int)) (m : Nat) (hA : WF (m + m) A)
    (hB : WF (m + m) B) (i j : Nat) (him : i < m) (hjm : j < m) :
    mget (addMatrices (subtractMatrices (addMatrices
        (naiveMultiply (addMatrices (splitM11 A m) (splitM22 A m))
          (addMatrices (splitM11 B m) (splitM22 B m)))
        (naiveMultiply (splitM22 A m)
          (subtractMatrices (splitM21 B m) (splitM11 B m))))
        (naiveMultiply (addMatrices (splitM11 A m) (splitM12 A m)) (splitM22 B m)))
      (naiveMultiply (subtractMatrices (splitM12 A m) (splitM22 A m))
        (addMatrices (splitM21 B m) (splitM22 B m)))) i j
    = (∑ p ∈ Finset.range m, mget A i p * mget B p j)
      + ∑ p ∈ Finset.range m, mget A i (m + p) * mget B (m + p) j := by
  have lA11 : (splitM11 A m).length = m := (WF_splitM11 A m hA).1
  have lA12 : (splitM12 A m).length = m := (WF_splitM12 A m hA).1
  have lA22 : (splitM22 A m).length = m := (WF_splitM22 A m hA).1
  have lB11 : (splitM11 B m).length = m := (WF_splitM11 B m hB).1
  have lB21 : (splitM21 B m).length = m := (WF_splitM21 B m hB).1
  have lX1 : (addMatrices (splitM11 A m) (splitM22 A m)).length = m := by
    rw [addMatrices_length, lA11]
  have lX5 : (addMatrices (splitM11 A m) (splitM12 A m)).length = m := by
    rw [addMatrices_length, lA11]
  have lX7 : (subtractMatrices (splitM12 A m) (splitM22 A m)).length = m := by
    rw [subtractMatrices_length, lA12]
  have lN1 : (naiveMultiply (addMatrices (splitM11 A m) (splitM22 A m))
      (addMatrices (splitM11 B m) (splitM22 B m))).length = m := by
    rw [naive_length, lX1]
  have lN4 : (naiveMultiply (splitM22 A m)
      (subtractMatrices (splitM21 B m) (splitM11 B m))).length = m := by
    rw [naive_length, lA22]
  have lA14 : (addMatrices
      (naiveMultiply (addMatrices (splitM11 A m) (splitM22 A m))
        (addMatrices (splitM11 B m) (splitM22 B m)))
      (naiveMultiply (splitM22 A m)
        (subtractMatrices (splitM21 B m) (splitM11 B m)))).length = m := by
    rw [addMatrices_length, lN1]
  have lS145 : (subtractMatrices (addMatrices
      (naiveMultiply (addMatrices (splitM11 A m) (splitM22 A m))
        (addMatrices (splitM11 B m) (splitM22 B m)))
      (naiveMultiply (splitM22 A m)
        (subtractMatrices (splitM21 B m) (splitM11 B m))))
      (naiveMultiply (addMatrices (splitM11 A m) (splitM12 A m))
        (splitM22 B m))).length = m := by
    rw [subtractMatrices_length, lA14]
  rw [mget_add2 _ _ m i j lS145 him hjm, mget_sub2 _ _ m i j lA14 him hjm,
    mget_add2 _ _ m i j lN1 him hjm]
  have hN1 : mget (naiveMultiply (addMatrices (splitM11 A m) (splitM22 A m))
      (addMatrices (splitM11 B m) (splitM22 B m))) i j
      = ∑ p ∈ Finset.range m,
          (mget A i p + mget A (m + i) (m + p)) * (mget B p j + mget B (m + p) (m + j)) := by
    rw [mget_naive _ _ i j (by rw [lX1]; omega) (by rw [lX1]; omega), lX1]
    refine Finset.sum_congr rfl ?_
    intro p hp
    have hpm : p < m := Finset.mem_range.mp hp
    rw [mget_add2 _ _ m i p lA11 him hpm, mget_splitM11 A m i p him hpm,
      mget_splitM22 A m i p, mget_add2 _ _ m p j lB11 hpm hjm,
      mget_splitM11 B m p j hpm hjm, mget_splitM22 B m p j]
  have hN4 : mget (naiveMultiply (splitM22 A m)
      (subtractMatrices (splitM21 B m) (splitM11 B m))) i j
      = ∑ p ∈ Finset.range m,
          mget A (m + i) (m + p) * (mget B (m + p) j - mget B p j) := by
    rw [mget_naive _ _ i j (by rw [lA22]; omega) (by rw [lA22]; omega), lA22]
    refine Finset.sum_congr rfl ?_
    intro p hp
    have hpm : p < m := Finset.mem_range.mp hp
    rw [mget_splitM22 A m i p, mget_sub2 _ _ m p j lB21 hpm hjm,
      mget_splitM21 B m p j hjm, mget_splitM11 B m p j hpm hjm]
  have hN5 : mget (naiveMultiply (addMatrices (splitM11 A m) (splitM12 A m))
      (splitM22 B m)) i j
      = ∑ p ∈ Finset.range m,
          (mget A i p + mget A i (m + p)) * mget B (m + p) (m + j) := by
    rw [mget_naive _ _ i j (by rw [lX5]; omega) (by rw [lX5]; omega), lX5]
    refine Finset.sum_congr rfl ?_
    intro p hp
    have hpm : p < m := Finset.mem_range.mp hp
    rw [mget_add2 _ _ m i p lA11 him hpm, mget_splitM11 A m i p him hpm,
      mget_splitM12 A m i p him, mget_splitM22 B m p j]
  have hN7 : mget (naiveMultiply (subtractMatrices (splitM12 A m) (splitM22 A m))
      (addMatrices (splitM21 B m) (splitM22 B m))) i j
      = ∑ p ∈ Finset.range m,
          (mget A i (m + p) - mget A (m + i) (m + p)) * (mget B (m + p) j + mget B (m + p) (m + j)) := by
    rw [mget_naive _ _ i j (by rw [lX7]; omega) (by rw [lX7]; omega), lX7]
    refine Finset.sum_congr rfl ?_
    intro p hp
    have hpm : p < m := Finset.mem_range.mp hp
    rw [mget_sub2 _ _ m i p lA12 him hpm, mget_splitM12 A m i p him,
      mget_splitM22 A m i p, mget_add2 _ _ m p j lB21 hpm hjm,
      mget_splitM21 B m p j hjm, mget_splitM22 B m p j]
  rw [hN1, hN4, hN5, hN7]
  rw [← Finset.sum_add_distrib, ← Finset.sum_sub_distrib, ← Finset.sum_add_distrib,
    ← Finset.sum_add_distrib]
  refine Finset.sum_congr rfl ?_
  intro p _
  ring

end Strassen

namespace Strassen

set_option maxHeartbeats 1000000 in
/-- Entry of the combined C12 quadrant (M3 + M5) equals the top-right block
of the full product. -/
theorem quadTR (A B : List (List Int)) (m : Nat) (hA : WF (m + m) A)
    (hB : WF (m + m) B) (i j : Nat) (him : i < m) (hjm : j < m) :
    mget (addMatrices
        (naiveMultiply (splitM11 A m)
          (subtractMatrices (splitM12 B m) (splitM22 B m)))
        (naiveMultiply (addMatrices (splitM11 A m) (splitM12 A m)) (splitM22 B m))) i j
    = (∑ p ∈ Finset.range m, mget A i p * mget B p (m + j))
      + ∑ p ∈ Finset.range m, mget A i (m + p) * mget B (m + p) (m + j) := by
  have lA11 : (splitM11 A m).length = m := (WF_splitM11 A m hA).1
  have lA12 : (splitM12 A m).length = m := (WF_splitM12 A m hA).1
  have lB12 : (splitM12 B m).length = m := (WF_splitM12 B m hB).1
  have lX5 : (addMatrices (splitM11 A m) (splitM12 A m)).length = m := by
    rw [addMatrices_length, lA11]
  have lN3 : (naiveMultiply (splitM11 A m)
      (subtractMatrices (splitM12 B m) (splitM22 B m))).length = m := by
    rw [naive_length, lA11]
  rw [mget_add2 _ _ m i j lN3 him hjm]
  have hN3 : mget (naiveMultiply (splitM11 A m)
      (subtractMatrices (splitM12 B m) (splitM22 B m))) i j
      = ∑ p ∈ Finset.range m,
          mget A i p * (mget B p (m + j) - mget B (m + p) (m + j)) := by
    rw [mget_naive _ _ i j (by rw [lA11]; omega) (by rw [lA11]; omega), lA11]
    refine Finset.sum_congr rfl ?_
    intro p hp
    have hpm : p < m := Finset.mem_range.mp hp
    rw [mget_splitM11 A m i p him hpm, mget_sub2 _ _ m p j lB12 hpm hjm,
      mget_splitM12 B m p j hpm, mget_splitM22 B m p j]
  have hN5 : mget (naiveMultiply (addMatrices (splitM11 A m) (splitM12 A m))
      (splitM22 B m)) i j
      = ∑ p ∈ Finset.range m,
          (mget A i p + mget A i (m + p)) * mget B (m + p) (m + j) := by
    rw [mget_naive _ _ i j (by rw [lX5]; omega) (by rw [lX5]; omega), lX5]
    refine Finset.sum_congr rfl ?_
    intro p hp
    have hpm : p < m := Finset.mem_range.mp hp
    rw [mget_add2 _ _ m i p lA11 him hpm, mget_splitM11 A m i p him hpm,
      mget_splitM12 A m i p him, mget_splitM22 B m p j]
  rw [hN3, hN5, ← Finset.sum_add_distrib, ← Finset.sum_add_distrib]
  refine Finset.sum_congr rfl ?_
  intro p _
  ring

set_option maxHeartbeats 1000000 in
/-- Entry of the combined C21 quadrant (M2 + M4) equals the bottom-left block
of the full product. -/
theorem quadBL (A B : List (List Int)) (m : Nat) (hA : WF (m + m) A)
    (hB : WF (m + m) B) (i j : Nat) (him : i < m) (hjm : j < m) :
    mget (addMatrices
        (naiveMultiply (addMatrices (splitM21 A m) (splitM22 A m)) (splitM11 B m))
        (naiveMultiply (splitM22 A m)
          (subtractMatrices (splitM21 B m) (splitM11 B m)))) i j
    = (∑ p ∈ Finset.range m, mget A (m + i) p * mget B p j)
      + ∑ p ∈ Finset.range m, mget A (m + i) (m + p) * mget B (m + p) j := by
  have lA21 : (splitM21 A m).length = m := (WF_splitM21 A m hA).1
  have lA22 : (splitM22 A m).length = m := (WF_splitM22 A m hA).1
  have lB11 : (splitM11 B m).length = m := (WF_splitM11 B m hB).1
  have lB21 : (splitM21 B m).length = m := (WF_splitM21 B m hB).1
  have lX2 : (addMatrices (splitM21 A m) (splitM22 A m)).length = m := by
    rw [addMatrices_length, lA21]
  have lN2 : (naiveMultiply (addMatrices (splitM21 A m) (splitM22 A m))
      (splitM11 B m)).length = m := by
    rw [naive_length, lX2]
  rw [mget_add2 _ _ m i j lN2 him hjm]
  have hN2 : mget (naiveMultiply (addMatrices (splitM21 A m) (splitM22 A m))
      (splitM11 B m)) i j
      = ∑ p ∈ Finset.range m,
          (mget A (m + i) p + mget A (m + i) (m + p)) * mget B p j := by
    rw [mget_naive _ _ i j (by rw [lX2]; omega) (by rw [lX2]; omega), lX2]
    refine Finset.sum_congr rfl ?_
    intro p hp
    have hpm : p < m := Finset.mem_range.mp hp
    rw [mget_add2 _ _ m i p lA21 him hpm, mget_splitM21 A m i p hpm,
      mget_splitM22 A m i p, mget_splitM11 B m p j hpm hjm]
  have hN4 : mget (naiveMultiply (splitM22 A m)
      (subtractMatrices (splitM21 B m) (splitM11 B m))) i j
      = ∑ p ∈ Finset.range m,
          mget A (m + i) (m + p) * (mget B (m + p) j - mget B p j) := by
    rw [mget_naive _ _ i j (by rw [lA22]; omega) (by rw [lA22]; omega), lA22]
    refine Finset.sum_congr rfl ?_
    intro p hp
    have hpm : p < m := Finset.mem_range.mp hp
    rw [mget_splitM22 A m i p, mget_sub2 _ _ m p j lB21 hpm hjm,
      mget_splitM21 B m p j hjm, mget_splitM11 B m p j hpm hjm]
  rw [hN2, hN4, ← Finset.sum_add_distrib, ← Finset.sum_add_distrib]
  refine Finset.sum_congr rfl ?_
  intro p _
  ring

set_option maxHeartbeats 1000000 in
/-- Entry of the combined C22 quadrant (M1 - M2 + M3 + M6) equals the
bottom-right block of the full product. -/
theorem quadBR (A B : List (List Int)) (m : Nat) (hA : WF (m + m) A)
    (hB : WF (m + m) B) (i j : Nat) (him : i < m) (hjm : j < m) :
    mget (addMatrices (subtractMatrices (addMatrices
        (naiveMultiply (addMatrices (splitM11 A m) (splitM22 A m))
          (addMatrices (splitM11 B m) (splitM22 B m)))
        (naiveMultiply (splitM11 A m)
          (subtractMatrices (splitM12 B m) (splitM22 B m))))
        (naiveMultiply (addMatrices (splitM21 A m) (splitM22 A m)) (splitM11 B m)))
      (naiveMultiply (subtractMatrices (splitM21 A m) (splitM11 A m))
        (addMatrices (splitM11 B m) (splitM12 B m)))) i j
    = (∑ p ∈ Finset.range m, mget A (m + i) p * mget B p (m + j))
      + ∑ p ∈ Finset.range m, mget A (m + i) (m + p) * mget B (m + p) (m + j) := by
  have lA11 : (splitM11 A m).length = m := (WF_splitM11 A m hA).1
  have lA21 : (splitM21 A m).length = m := (WF_splitM21 A m hA).1
  have lB11 : (splitM11 B m).length = m := (WF_splitM11 B m hB).1
  have lB12 : (splitM12 B m).length = m := (WF_splitM12 B m hB).1
  have lX1 : (addMatrices (splitM11 A m) (splitM22 A m)).length = m := by
    rw [addMatrices_length, lA11]
  have lX2 : (addMatrices (splitM21 A m) (splitM22 A m)).length = m := by
    rw [addMatrices_length, lA21]
  have lX6 : (subtractMatrices (splitM21 A m) (splitM11 A m)).length = m := by
    rw [subtractMatrices_length, lA21]
  have lN1 : (naiveMultiply (addMatrices (splitM11 A m) (splitM22 A m))
      (addMatrices (splitM11 B m) (splitM22 B m))).length = m := by
    rw [naive_length, lX1]
  have lA13 : (addMatrices
      (naiveMultiply (addMatrices (splitM11 A m) (splitM22 A m))
        (addMatrices (splitM11 B m) (splitM22 B m)))
      (naiveMultiply (splitM11 A m)
        (subtractMatrices (splitM12 B m) (splitM22 B m)))).length = m := by
    rw [addMatrices_length, lN1]
  have lS132 : (subtractMatrices (addMatrices
      (naiveMultiply (addMatrices (splitM11 A m) (splitM22 A m))
        (addMatrices (splitM11 B m) (splitM22 B m)))
      (naiveMultiply (splitM11 A m)
        (subtractMatrices (splitM12 B m) (splitM22 B m))))
      (naiveMultiply (addMatrices (splitM21 A m) (splitM22 A m))
        (splitM11 B m))).length = m := by
    rw [subtractMatrices_length, lA13]
  rw [mget_add2 _ _ m i j lS132 him hjm, mget_sub2 _ _ m i j lA13 him hjm,
    mget_add2 _ _ m i j lN1 him hjm]
  have hN1 : mget (naiveMultiply (addMatrices (splitM11 A m) (splitM22 A m))
      (addMatrices (splitM11 B m) (splitM22 B m))) i j
      = ∑ p ∈ Finset.range m,
          (mget A i p + mget A (m + i) (m + p)) * (mget B p j + mget B (m + p) (m + j)) := by
    rw [mget_naive _ _ i j (by rw [lX1]; omega) (by rw [lX1]; omega), lX1]
    refine Finset.sum_congr rfl ?_
    intro p hp
    have hpm : p < m := Finset.mem_range.mp hp
    rw [mget_add2 _ _ m i p lA11 him hpm, mget_splitM11 A m i p him hpm,
      mget_splitM22 A m i p, mget_add2 _ _ m p j lB11 hpm hjm,
      mget_splitM11 B m p j hpm hjm, mget_splitM22 B m p j]
  have hN3 : mget (naiveMultiply (splitM11 A m)
      (subtractMatrices (splitM12 B m) (splitM22 B m))) i j
      = ∑ p ∈ Finset.range m,
          mget A i p * (mget B p (m + j) - mget B (m + p) (m + j)) := by
    rw [mget_naive _ _ i j (by rw [lA11]; omega) (by rw [lA11]; omega), lA11]
    refine Finset.sum_congr rfl ?_
    intro p hp
    have hpm : p < m := Finset.mem_range.mp hp
    rw [mget_splitM11 A m i p him hpm, mget_sub2 _ _ m p j lB12 hpm hjm,
      mget_splitM12 B m p j hpm, mget_splitM22 B m p j]
  have hN2 : mget (naiveMultiply (addMatrices (splitM21 A m) (splitM22 A m))
      (splitM11 B m)) i j
      = ∑ p ∈ Finset.range m,
          (mget A (m + i) p + mget A (m + i) (m + p)) * mget B p j := by
    rw [mget_naive _ _ i j (by rw [lX2]; omega) (by rw [lX2]; omega), lX2]
    refine Finset.sum_congr rfl ?_
    intro p hp
    have hpm : p < m := Finset.mem_range.mp hp
    rw [mget_add2 _ _ m i p lA21 him hpm, mget_splitM21 A m i p hpm,
      mget_splitM22 A m i p, mget_splitM11 B m p j hpm hjm]
  have hN6 : mget (naiveMultiply (subtractMatrices (splitM21 A m) (splitM11 A m))
      (addMatrices (splitM11 B m) (splitM12 B m))) i j
      = ∑ p ∈ Finset.range m,
          (mget A (m + i) p - mget A i p) * (mget B p j + mget B p (m + j)) := by
    rw [mget_naive _ _ i j (by rw [lX6]; omega) (by rw [lX6]; omega), lX6]
    refine Finset.sum_congr rfl ?_
    intro p hp
    have hpm : p < m := Finset.mem_range.mp hp
    rw [mget_sub2 _ _ m i p lA21 him hpm, mget_splitM21 A m i p hpm,
      mget_splitM11 A m i p him hpm, mget_add2 _ _ m p j lB11 hpm hjm,
      mget_splitM11 B m p j hpm hjm, mget_splitM12 B m p j hpm]
  rw [hN1, hN3, hN2, hN6]
  rw [← Finset.sum_add_distrib, ← Finset.sum_sub_distrib, ← Finset.sum_add_distrib,
    ← Finset.sum_add_distrib]
  refine Finset.sum_congr rfl ?_
  intro p _
  ring

end Strassen

namespace Strassen

theorem WF_mkMat2 (n m : Nat) (f : Nat → Nat → Int) (h : n = m) : WF m (mkMat n f) :=
  h ▸ WF_mkMat n f

set_option maxHeartbeats 2000000 in
/-- Translation of the documented Strassen property: on power-of-two sized
square integer matrices, _strassen computes exactly the naive cubic product. -/
theorem strassen_eq_naive : ∀ (k : Nat) (A B : List (List Int)),
    WF (2 ^ k) A → WF (2 ^ k) B → strassen A B = naiveMultiply A B := by
  intro k
  induction k with
  | zero =>
    intro A B hA hB
    have hA1 : A.length = 1 := hA.1
    rw [strassen, dif_neg (by omega), dif_pos hA1]
    unfold naiveMultiply mkMat
    rw [hA1]
    simp [List.range_succ]
  | succ k ih =>
    intro A B hA hB
    by_cases hk0 : k = 0
    · subst hk0
      have hA2 : A.length = 2 := hA.1
      rw [strassen, dif_neg (by omega), dif_neg (by omega), dif_pos hA2]
      apply matEq_of_mget _ _ 2 (WF_strassen2x2 A B) (WF_naive A B 2 hA2)
      intro i j hi hj
      have hnaive := mget_naive A B i j (by omega) (by omega)
      rw [hA2] at hnaive
      rw [Finset.sum_range_succ, Finset.sum_range_one] at hnaive
      rw [hnaive]
      interval_cases i <;> interval_cases j <;>
        simp only [strassen2x2, mget, List.getD_cons_zero, List.getD_cons_succ] <;> ring
    · have hm1 : 1 ≤ 2 ^ k := Nat.one_le_two_pow
      have hm2 : 2 ≤ 2 ^ k := by
        have := Nat.one_lt_two_pow_iff.mpr hk0
        omega
      have hpow : 2 ^ (k + 1) = 2 ^ k + 2 ^ k := by
        rw [pow_succ]
        omega
      have hAlen : A.length = 2 ^ k + 2 ^ k := by
        rw [hA.1, hpow]
      have hBlen : B.length = 2 ^ k + 2 ^ k := by
        rw [hB.1, hpow]
      have hA2 : WF (2 ^ k + 2 ^ k) A := by
        rw [← hpow]
        exact hA
      have hB2 : WF (2 ^ k + 2 ^ k) B := by
        rw [← hpow]
        exact hB
      have hmid : A.length / 2 = 2 ^ k := by
        rw [hAlen]
        omega
      rw [strassen, dif_neg (by omega), dif_neg (by omega), dif_neg (by omega)]
      simp only [hmid]
      have wfA11 := WF_splitM11 A (2 ^ k) hA2
      have wfA12 := WF_splitM12 A (2 ^ k) hA2
      have wfA21 := WF_splitM21 A (2 ^ k) hA2
      have wfA22 := WF_splitM22 A (2 ^ k) hA2
      have wfB11 := WF_splitM11 B (2 ^ k) hB2
      have wfB12 := WF_splitM12 B (2 ^ k) hB2
      have wfB21 := WF_splitM21 B (2 ^ k) hB2
      have wfB22 := WF_splitM22 B (2 ^ k) hB2
      rw [ih _ _ (WF_add _ _ _ wfA11.1) (WF_add _ _ _ wfB11.1),
        ih _ _ (WF_add _ _ _ wfA21.1) wfB11,
        ih _ _ wfA11 (WF_sub _ _ _ wfB12.1),
        ih _ _ wfA22 (WF_sub _ _ _ wfB21.1),
        ih _ _ (WF_add _ _ _ wfA11.1) wfB22,
        ih _ _ (WF_sub _ _ _ wfA21.1) (WF_add _ _ _ wfB11.1),
        ih _ _ (WF_sub _ _ _ wfA12.1) (WF_add _ _ _ wfB21.1)]
      have lA11 : (splitM11 A (2 ^ k)).length = 2 ^ k := wfA11.1
      have lN1 : (naiveMultiply (addMatrices (splitM11 A (2 ^ k)) (splitM22 A (2 ^ k)))
          (addMatrices (splitM11 B (2 ^ k)) (splitM22 B (2 ^ k)))).length = 2 ^ k := by
        rw [naive_length, addMatrices_length, lA11]
      have lC11 : (addMatrices (subtractMatrices (addMatrices
          (naiveMultiply (addMatrices (splitM11 A (2 ^ k)) (splitM22 A (2 ^ k)))
            (addMatrices (splitM11 B (2 ^ k)) (splitM22 B (2 ^ k))))
          (naiveMultiply (splitM22 A (2 ^ k))
            (subtractMatrices (splitM21 B (2 ^ k)) (splitM11 B (2 ^ k)))))
          (naiveMultiply (addMatrices (splitM11 A (2 ^ k)) (splitM12 A (2 ^ k)))
            (splitM22 B (2 ^ k))))
        (naiveMultiply (subtractMatrices (splitM12 A (2 ^ k)) (splitM22 A (2 ^ k)))
          (addMatrices (splitM21 B (2 ^ k)) (splitM22 B (2 ^ k))))).length = 2 ^ k := by
        rw [addMatrices_length, subtractMatrices_length, addMatrices_length, lN1]
      apply matEq_of_mget _ _ (2 ^ k + 2 ^ k) ?_ (WF_naive A B _ hAlen)
      · intro i j hi hj
        rw [naive_block A B (2 ^ k) hAlen i j hi hj]
        unfold combineQuadrants
        rw [mget_mkMat _ _ i j (by rw [lC11]; omega) (by rw [lC11]; omega), lC11]
        by_cases hi2 : i < 2 ^ k
        · by_cases hj2 : j < 2 ^ k
          · rw [if_pos hi2, if_pos hj2]
            exact quadTL A B (2 ^ k) hA2 hB2 i j hi2 hj2
          · rw [if_pos hi2, if_neg hj2]
            obtain ⟨j2, rfl⟩ : ∃ j2, j = 2 ^ k + j2 := ⟨j - 2 ^ k, by omega⟩
            have hj3 : 2 ^ k + j2 - 2 ^ k = j2 := by omega
            rw [hj3]
            exact quadTR A B (2 ^ k) hA2 hB2 i j2 hi2 (by omega)
        · by_cases hj2 : j < 2 ^ k
          · rw [if_neg hi2, if_pos hj2]
            obtain ⟨i2, rfl⟩ : ∃ i2, i = 2 ^ k + i2 := ⟨i - 2 ^ k, by omega⟩
            have hi3 : 2 ^ k + i2 - 2 ^ k = i2 := by omega
            rw [hi3]
            exact quadBL A B (2 ^ k) hA2 hB2 i2 j (by omega) hj2
          · rw [if_neg hi2, if_neg hj2]
            obtain ⟨i2, rfl⟩ : ∃ i2, i = 2 ^ k + i2 := ⟨i - 2 ^ k, by omega⟩
            obtain ⟨j2, rfl⟩ : ∃ j2, j = 2 ^ k + j2 := ⟨j - 2 ^ k, by omega⟩
            have hi3 : 2 ^ k + i2 - 2 ^ k = i2 := by omega
            have hj3 : 2 ^ k + j2 - 2 ^ k = j2 := by omega
            rw [hi3, hj3]
            exact quadBR A B (2 ^ k) hA2 hB2 i2 j2 (by omega) (by omega)
      · unfold combineQuadrants
        refine WF_mkMat2 _ _ _ ?_
        rw [lC11]
        omega

end Strassen

namespace Traceback

/-- Translation of TracebackManager._animateKnapsackTraceback (the monk-mode
variant _setupMonkModeKnapsack walks the same rule): starting from (i, w),
while i > 0 and w > 0, include item i and move to (i-1, w - weights[i-1])
when dp[i][w] differs from dp[i-1][w], else move to (i-1, w). The returned
list is the selectedItems accumulated by _includeItem; log entries and
highlights are presentation and omitted. -/
def knapsackTraceback (dp : Nat → Nat → Nat) (weights : List Nat) : Nat → Nat → List Nat
  | 0, _ => []
  | i + 1, w =>
    if w = 0 then []
    else if dp (i + 1) w ≠ dp i w then
      (i + 1) :: knapsackTraceback dp weights i (w - weights.getD i 0)
    else knapsackTraceback dp weights i w

theorem knapsackTraceback_spec (cap : Nat) (weights values : List Nat) :
    ∀ i w, i ≤ weights.length → w ≤ cap →
      ((knapsackTraceback (Knap.table cap weights values) weights i w).map
          (fun t => values.getD (t - 1) 0)).sum
        = Knap.table cap weights values i w ∧
      ((knapsackTraceback (Knap.table cap weights values) weights i w).map
          (fun t => weights.getD (t - 1) 0)).sum ≤ w := by
  intro i
  induction i with
  | zero =>
    intro w _ hw
    simp only [knapsackTraceback, List.map_nil, List.sum_nil]
    constructor
    · rw [Knap.table_eq_dpRef cap weights values 0 w (by omega) hw,
        Knap.dpRef_base weights values 0 w (Or.inl rfl)]
    · omega
  | succ i ih =>
    intro w hi hw
    by_cases hw0 : w = 0
    · subst hw0
      have hstep0 : knapsackTraceback (Knap.table cap weights values) weights (i + 1) 0 = [] := by
        rw [knapsackTraceback]
        simp
      rw [hstep0]
      simp only [List.map_nil, List.sum_nil]
      constructor
      · rw [Knap.table_eq_dpRef cap weights values (i + 1) 0 hi (by omega),
          Knap.dpRef_base weights values (i + 1) 0 (Or.inr rfl)]
      · omega
    · have hTsucc : Knap.table cap weights values (i + 1) w
          = Knap.dpRef weights values (i + 1) w :=
        Knap.table_eq_dpRef cap weights values (i + 1) w hi hw
      have hTi : Knap.table cap weights values i w = Knap.dpRef weights values i w :=
        Knap.table_eq_dpRef cap weights values i w (by omega) hw
      by_cases hne : Knap.table cap weights values (i + 1) w
          ≠ Knap.table cap weights values i w
      · have hstep : knapsackTraceback (Knap.table cap weights values) weights (i + 1) w
            = (i + 1) :: knapsackTraceback (Knap.table cap weights values) weights i
                (w - weights.getD i 0) := by
          rw [knapsackTraceback, if_neg hw0, if_pos hne]
        have hcw : ¬(weights.getD i 0 > w) := by
          intro hgt
          apply hne
          rw [hTsucc, hTi, Knap.dpRef, if_neg hw0, if_pos hgt]
        have hrec : Knap.dpRef weights values (i + 1) w
            = max (values.getD i 0 + Knap.dpRef weights values i (w - weights.getD i 0))
                (Knap.dpRef weights values i w) := by
          rw [Knap.dpRef, if_neg hw0, if_neg hcw]
        have hmax : Knap.dpRef weights values (i + 1) w
            = values.getD i 0 + Knap.dpRef weights values i (w - weights.getD i 0) := by
          rw [hTsucc, hTi] at hne
          rw [hrec]
          rw [hrec] at hne
          omega
        obtain ⟨ihv, ihw⟩ := ih (w - weights.getD i 0) (by omega) (by omega)
        rw [hstep]
        simp only [List.map_cons, List.sum_cons, Nat.add_sub_cancel]
        constructor
        · rw [ihv, hTsucc, hmax,
            Knap.table_eq_dpRef cap weights values i (w - weights.getD i 0) (by omega) (by omega)]
        · omega
      · push_neg at hne
        have hstep : knapsackTraceback (Knap.table cap weights values) weights (i + 1) w
            = knapsackTraceback (Knap.table cap weights values) weights i w := by
          rw [knapsackTraceback, if_neg hw0, if_neg (by simpa using hne)]
        obtain ⟨ihv, ihw⟩ := ih w (by omega) hw
        rw [hstep]
        exact ⟨by rw [ihv, ← hne], ihw⟩

end Traceback

namespace Table

/-- Projection of a step to its target cell and kind. -/
def stepSig (s : Step) : Nat × Nat × StepKind := (s.row, s.col, s.kind)

theorem rowMajor_nodup (rows cols : Nat) : (rowMajor rows cols).Nodup := by
  unfold rowMajor
  rw [List.nodup_flatMap]
  constructor
  · intro i _
    exact (List.nodup_range cols).map (fun a b h => by
      simpa using congrArg Prod.snd h)
  · refine List.Pairwise.imp ?_ (List.pairwise_lt_range rows)
    intro a b hab
    intro x hx1 hx2
    simp only [List.mem_map, List.mem_range] at hx1 hx2
    obtain ⟨w1, _, rfl⟩ := hx1
    obtain ⟨w2, _, h2⟩ := hx2
    have := congrArg Prod.fst h2
    simp at this
    omega

theorem rowMajor_mem (rows cols i j : Nat) (hi : i < rows) (hj : j < cols) :
    (i, j) ∈ rowMajor rows cols := by
  unfold rowMajor
  rw [List.mem_flatMap]
  exact ⟨i, List.mem_range.mpr hi, List.mem_map.mpr ⟨j, List.mem_range.mpr hj, rfl⟩⟩

/-- Filtering a per-cell step concatenation by a predicate that only holds at
cell (i, j) keeps exactly the matching steps of that cell. -/
theorem flatMap_filter_cell (F : Nat → Nat → List Step) (q : Step → Bool) (i j : Nat)
    (hF : ∀ a b s, s ∈ F a b → s.row = a ∧ s.col = b)
    (hq : ∀ s, q s = true → s.row = i ∧ s.col = j) :
    ∀ l : List (Nat × Nat), l.Nodup → (i, j) ∈ l →
      (l.flatMap (fun p => F p.1 p.2)).filter q = (F i j).filter q := by
  intro l
  induction l with
  | nil =>
    intro _ hmem
    simp at hmem
  | cons hd t ih =>
    intro hnd hmem
    have hnd2 := List.nodup_cons.mp hnd
    rw [List.flatMap_cons, List.filter_append]
    by_cases hhd : hd = (i, j)
    · subst hhd
      have htail : ((t.flatMap (fun p => F p.1 p.2)).filter q) = [] := by
        rw [List.filter_eq_nil_iff]
        intro s hs
        rw [List.mem_flatMap] at hs
        obtain ⟨p, hp, hsp⟩ := hs
        intro hqs
        obtain ⟨h1, h2⟩ := hF p.1 p.2 s hsp
        obtain ⟨h3, h4⟩ := hq s hqs
        apply hnd2.1
        have : p = (i, j) := by
          obtain ⟨pa, pb⟩ := p
          simp only at h1 h2
          rw [← h1, ← h2, h3, h4]
        rw [← this]
        exact hp
      rw [htail, List.append_nil]
    · have hhead : ((F hd.1 hd.2).filter q) = [] := by
        rw [List.filter_eq_nil_iff]
        intro s hs hqs
        obtain ⟨h1, h2⟩ := hF hd.1 hd.2 s hs
        obtain ⟨h3, h4⟩ := hq s hqs
        apply hhd
        obtain ⟨pa, pb⟩ := hd
        simp only at h1 h2
        rw [← h3, ← h4, h1, h2]
      rw [hhead, List.nil_append]
      refine ih hnd2.2 ?_
      rcases List.mem_cons.mp hmem with h | h
      · exact absurd h.symm hhd
      · exact h

end Table

namespace Table

theorem rowMajor_succ (m cols : Nat) :
    rowMajor (m + 1) cols = rowMajor m cols ++ (List.range cols).map (fun w => (m, w)) := by
  unfold rowMajor
  rw [List.range_succ]
  simp

theorem flatMap_congr_mem {α β : Type} (l : List α) (f g : α → List β)
    (h : ∀ a ∈ l, f a = g a) : l.flatMap f = l.flatMap g := by
  induction l with
  | nil => rfl
  | cons x t ih =>
    rw [List.flatMap_cons, List.flatMap_cons, h x (by simp), ih (fun a ha => h a (by simp [ha]))]

theorem flatMap_length_row (F : Nat → Nat → List Step)
    (hlen : ∀ i j, (F i j).length = if i = 0 ∨ j = 0 then 1 else 2) (r : Nat) :
    ∀ C, (((List.range C).map (fun w => (r, w))).flatMap (fun p => F p.1 p.2)).length
      = if r = 0 then C else C + (C - 1) := by
  intro C
  induction C with
  | zero =>
    simp
  | succ C ih =>
    rw [List.range_succ, List.map_append, List.flatMap_append, List.length_append, ih]
    simp only [List.map_cons, List.map_nil, List.flatMap_cons, List.flatMap_nil,
      List.append_nil, List.length_append]
    rw [hlen r C]
    by_cases hr : r = 0
    · rw [if_pos hr, if_pos hr, if_pos (Or.inl hr)]
    · rw [if_neg hr, if_neg hr]
      by_cases hC : C = 0
      · rw [if_pos (Or.inr hC)]
        omega
      · rw [if_neg (by simp [hr, hC])]
        omega

theorem flatMap_length_grid (F : Nat → Nat → List Step)
    (hlen : ∀ i j, (F i j).length = if i = 0 ∨ j = 0 then 1 else 2) (C : Nat) :
    ∀ R, ((rowMajor (R + 1) (C + 1)).flatMap (fun p => F p.1 p.2)).length + (R + C + 1)
      = 2 * (R + 1) * (C + 1) := by
  intro R
  induction R with
  | zero =>
    rw [rowMajor_succ]
    have h0 : rowMajor 0 (C + 1) = [] := by
      simp [rowMajor]
    rw [h0, List.nil_append, flatMap_length_row F hlen 0 (C + 1), if_pos rfl]
    omega
  | succ R ih =>
    rw [rowMajor_succ, List.flatMap_append, List.length_append,
      flatMap_length_row F hlen (R + 1) (C + 1), if_neg (by omega)]
    have e : 2 * (R + 1 + 1) * (C + 1) = 2 * (R + 1) * (C + 1) + 2 * (C + 1) := by ring
    omega

end Table

namespace Knap

open Table

theorem cellSteps_coords (weights values : List Nat) (i j : Nat) :
    ∀ s ∈ cellSteps weights values i j, s.row = i ∧ s.col = j := by
  intro s hs
  unfold cellSteps at hs
  by_cases hbase : i = 0 ∨ j = 0
  · rw [if_pos hbase] at hs
    simp only [List.mem_cons, List.not_mem_nil, or_false] at hs
    subst hs
    exact ⟨rfl, rfl⟩
  · rw [if_neg hbase] at hs
    by_cases hcw : weights.getD (i - 1) 0 > j
    · rw [if_pos hcw] at hs
      simp only [List.mem_cons, List.not_mem_nil, or_false] at hs
      rcases hs with rfl | rfl
      · exact ⟨rfl, rfl⟩
      · exact ⟨rfl, rfl⟩
    · rw [if_neg hcw] at hs
      simp only [List.mem_cons, List.not_mem_nil, or_false] at hs
      rcases hs with rfl | rfl
      · exact ⟨rfl, rfl⟩
      · exact ⟨rfl, rfl⟩

theorem cellSteps_sig (weights values : List Nat) (i j : Nat) :
    (cellSteps weights values i j).map stepSig
      = if i = 0 ∨ j = 0 then [(i, j, StepKind.update)]
        else [(i, j, StepKind.inspect), (i, j, StepKind.update)] := by
  unfold cellSteps
  by_cases hbase : i = 0 ∨ j = 0
  · rw [if_pos hbase, if_pos hbase]
    rfl
  · rw [if_neg hbase, if_neg hbase]
    by_cases hcw : weights.getD (i - 1) 0 > j
    · rw [if_pos hcw]
      rfl
    · rw [if_neg hcw]
      rfl

theorem cellSteps_len (weights values : List Nat) (i j : Nat) :
    (cellSteps weights values i j).length = if i = 0 ∨ j = 0 then 1 else 2 := by
  have h := congrArg List.length (cellSteps_sig weights values i j)
  rw [List.length_map] at h
  rw [h]
  by_cases hbase : i = 0 ∨ j = 0
  · rw [if_pos hbase, if_pos hbase]
    rfl
  · rw [if_neg hbase, if_neg hbase]
    rfl

end Knap

namespace LCS

open Table

theorem cellSteps_coords_lcs (str1 str2 : List Char) (i j : Nat) :
    ∀ s ∈ cellSteps str1 str2 i j, s.row = i ∧ s.col = j := by
  intro s hs
  unfold cellSteps at hs
  by_cases hbase : i = 0 ∨ j = 0
  · rw [if_pos hbase] at hs
    simp only [List.mem_cons, List.not_mem_nil, or_false] at hs
    subst hs
    exact ⟨rfl, rfl⟩
  · rw [if_neg hbase] at hs
    by_cases hch : str1.getD (i - 1) 'a' = str2.getD (j - 1) 'a'
    · rw [if_pos hch] at hs
      simp only [List.mem_cons, List.not_mem_nil, or_false] at hs
      rcases hs with rfl | rfl
      · exact ⟨rfl, rfl⟩
      · exact ⟨rfl, rfl⟩
    · rw [if_neg hch] at hs
      simp only [List.mem_cons, List.not_mem_nil, or_false] at hs
      rcases hs with rfl | rfl
      · exact ⟨rfl, rfl⟩
      · exact ⟨rfl, rfl⟩

theorem cellSteps_sig_lcs (str1 str2 : List Char) (i j : Nat) :
    (cellSteps str1 str2 i j).map stepSig
      = if i = 0 ∨ j = 0 then [(i, j, StepKind.update)]
        else [(i, j, StepKind.inspect), (i, j, StepKind.update)] := by
  unfold cellSteps
  by_cases hbase : i = 0 ∨ j = 0
  · rw [if_pos hbase, if_pos hbase]
    rfl
  · rw [if_neg hbase, if_neg hbase]
    by_cases hch : str1.getD (i - 1) 'a' = str2.getD (j - 1) 'a'
    · rw [if_pos hch]
      rfl
    · rw [if_neg hch]
      rfl

theorem cellSteps_len_lcs (str1 str2 : List Char) (i j : Nat) :
    (cellSteps str1 str2 i j).length = if i = 0 ∨ j = 0 then 1 else 2 := by
  have h := congrArg List.length (cellSteps_sig_lcs str1 str2 i j)
  rw [List.length_map] at h
  rw [h]
  by_cases hbase : i = 0 ∨ j = 0
  · rw [if_pos hbase, if_pos hbase]
    rfl
  · rw [if_neg hbase, if_neg hbase]
    rfl

end LCS

namespace Heap

/-- Expected-pair match in either click order, with an in-range swap index,
as the specification of a valid monk-mode swap. -/
def MatchesExpected (expectedSwaps : List SwapPair) (swapIndex fromIndex toIndex : Nat) : Prop :=
  swapIndex < expectedSwaps.length ∧
  ((fromIndex = (expectedSwaps.getD swapIndex ⟨0, 0⟩).fromIdx ∧
      toIndex = (expectedSwaps.getD swapIndex ⟨0, 0⟩).toIdx) ∨
    (fromIndex = (expectedSwaps.getD swapIndex ⟨0, 0⟩).toIdx ∧
      toIndex = (expectedSwaps.getD swapIndex ⟨0, 0⟩).fromIdx))

instance (es : List SwapPair) (k f t : Nat) : Decidable (MatchesExpected es k f t) := by
  unfold MatchesExpected
  infer_instance

theorem validateSwap_iff (f t : Nat) (es : List SwapPair) (k : Nat) :
    validateSwap f t es k = true ↔ MatchesExpected es k f t := by
  unfold validateSwap MatchesExpected
  by_cases hk : es.length ≤ k
  · rw [if_pos hk]
    simp
    omega
  · rw [if_neg hk]
    simp only [Bool.or_eq_true, Bool.and_eq_true, beq_iff_eq]
    constructor
    · intro h
      exact ⟨by omega, h⟩
    · intro h
      exact h.2

end Heap

namespace Knap

open Table

/-- The update step the knapsack solver emits at an in-range decision cell
whose item fits, isolated by filtering the full step list. -/
theorem updateStep_filter (capacity : Nat) (weights values : List Nat) (i w : Nat)
    (hi1 : 1 ≤ i) (hi2 : i ≤ weights.length) (hw1 : 1 ≤ w) (hw2 : w ≤ capacity)
    (hcw : weights.getD (i - 1) 0 ≤ w) :
    (steps capacity weights values).filter
        (fun s => decide (s.row = i ∧ s.col = w ∧ s.kind = StepKind.update))
      = [⟨i, w, StepKind.update,
          some (max
            (values.getD (i - 1) 0 + dpRef weights values (i - 1) (w - weights.getD (i - 1) 0))
            (dpRef weights values (i - 1) w)),
          if dpRef weights values (i - 1) w
              < values.getD (i - 1) 0 + dpRef weights values (i - 1) (w - weights.getD (i - 1) 0)
            then [(i - 1, w - weights.getD (i - 1) 0)] else [(i - 1, w)]⟩] := by
  rw [steps_eq]
  rw [Table.flatMap_filter_cell (cellSteps weights values)
    (fun s => decide (s.row = i ∧ s.col = w ∧ s.kind = StepKind.update)) i w
    (fun a b => cellSteps_coords weights values a b)
    (fun s hs => by
      have h2 := of_decide_eq_true hs
      exact ⟨h2.1, h2.2.1⟩)
    (Table.rowMajor (weights.length + 1) (capacity + 1))
    (Table.rowMajor_nodup _ _)
    (Table.rowMajor_mem _ _ i w (by omega) (by omega))]
  simp only [cellSteps]
  rw [if_neg (show ¬(i = 0 ∨ w = 0) by omega),
    if_neg (show ¬(weights.getD (i - 1) 0 > w) by omega)]
  simp only [List.filter_cons, List.filter_nil]
  rw [if_neg (by simp), if_pos (by simp)]

end Knap

namespace LCS

open Table

/-- The update step the LCS solver emits at an in-range mismatch cell,
isolated by filtering the full step list. -/
theorem mismatchStep_filter (str1 str2 : List Char) (i j : Nat)
    (hi1 : 1 ≤ i) (hi2 : i ≤ str1.length) (hj1 : 1 ≤ j) (hj2 : j ≤ str2.length)
    (hne : str1.getD (i - 1) 'a' ≠ str2.getD (j - 1) 'a') :
    (steps str1 str2).filter
        (fun s => decide (s.row = i ∧ s.col = j ∧ s.kind = StepKind.update))
      = [⟨i, j, StepKind.update,
          some (max (dpRef str1 str2 (i - 1) j) (dpRef str1 str2 i (j - 1))),
          if dpRef str1 str2 i (j - 1) < dpRef str1 str2 (i - 1) j
            then [(i - 1, j)] else [(i, j - 1)]⟩] := by
  rw [steps_eq_lcs]
  rw [Table.flatMap_filter_cell (cellSteps str1 str2)
    (fun s => decide (s.row = i ∧ s.col = j ∧ s.kind = StepKind.update)) i j
    (fun a b => cellSteps_coords_lcs str1 str2 a b)
    (fun s hs => by
      have h2 := of_decide_eq_true hs
      exact ⟨h2.1, h2.2.1⟩)
    (Table.rowMajor (str1.length + 1) (str2.length + 1))
    (Table.rowMajor_nodup _ _)
    (Table.rowMajor_mem _ _ i j (by omega) (by omega))]
  simp only [cellSteps]
  rw [if_neg (show ¬(i = 0 ∨ j = 0) by omega), if_neg hne]
  simp only [List.filter_cons, List.filter_nil]
  rw [if_neg (by simp), if_pos (by simp)]

end LCS

/-- C1: KnapsackSolver.solve fills the dp table by the textbook 0/1 knapsack
recurrence: dp[i][0] = dp[0][w] = 0; at an interior cell, if the item fits
(weights[i-1] <= w) then dp[i][w] = max(values[i-1] + dp[i-1][w-weights[i-1]],
dp[i-1][w]), else dp[i][w] = dp[i-1][w]; and on the concrete instance
weights=[2,3,4,5], values=[3,4,5,6], capacity=5 the final cell dp[4][5] is 7. -/
theorem C1_knapsack_dp_recurrence (capacity : Nat) (weights values : List Nat) :
    (∀ i, i ≤ weights.length → Knap.table capacity weights values i 0 = 0) ∧
    (∀ w, w ≤ capacity → Knap.table capacity weights values 0 w = 0) ∧
    (∀ i w, 1 ≤ i → i ≤ weights.length → 1 ≤ w → w ≤ capacity →
      (weights.getD (i - 1) 0 ≤ w →
        Knap.table capacity weights values i w
          = max (values.getD (i - 1) 0
              + Knap.table capacity weights values (i - 1) (w - weights.getD (i - 1) 0))
            (Knap.table capacity weights values (i - 1) w)) ∧
      (w < weights.getD (i - 1) 0 →
        Knap.table capacity weights values i w
          = Knap.table capacity weights values (i - 1) w)) ∧
    Knap.table 5 [2, 3, 4, 5] [3, 4, 5, 6] 4 5 = 7 := by
  refine ⟨?_, ?_, ?_, ?_⟩
  · intro i hi
    rw [Knap.table_eq_dpRef capacity weights values i 0 hi (Nat.zero_le _),
      Knap.dpRef_base weights values i 0 (Or.inr rfl)]
  · intro w hw
    rw [Knap.table_eq_dpRef capacity weights values 0 w (Nat.zero_le _) hw,
      Knap.dpRef_base weights values 0 w (Or.inl rfl)]
  · intro i w hi1 hi2 hw1 hw2
    obtain ⟨i1, rfl⟩ : ∃ i1, i = i1 + 1 := ⟨i - 1, by omega⟩
    simp only [Nat.add_sub_cancel]
    have e0 := Knap.table_eq_dpRef capacity weights values (i1 + 1) w hi2 hw2
    have e1 := Knap.table_eq_dpRef capacity weights values i1 w (by omega) hw2
    constructor
    · intro hcw
      have e2 := Knap.table_eq_dpRef capacity weights values i1
        (w - weights.getD i1 0) (by omega) (by omega)
      rw [e0, e1, e2, Knap.dpRef, if_neg (by omega), if_neg (by omega)]
    · intro hcw
      rw [e0, e1, Knap.dpRef, if_neg (by omega), if_pos (by omega)]
  · decide

/-- Witness for C1: the interior recurrence at cell (2, 3) of the concrete
instance, and a base-column cell. -/
theorem C1_knapsack_dp_recurrence_witness :
    Knap.table 5 [2, 3, 4, 5] [3, 4, 5, 6] 2 3
      = max (List.getD [3, 4, 5, 6] 1 0
          + Knap.table 5 [2, 3, 4, 5] [3, 4, 5, 6] 1 (3 - List.getD [2, 3, 4, 5] 1 0))
        (Knap.table 5 [2, 3, 4, 5] [3, 4, 5, 6] 1 3) ∧
    Knap.table 5 [2, 3, 4, 5] [3, 4, 5, 6] 4 0 = 0 := by
  constructor
  · exact ((C1_knapsack_dp_recurrence 5 [2, 3, 4, 5] [3, 4, 5, 6]).2.2.1 2 3
      (by decide) (by decide) (by decide) (by decide)).1 (by decide)
  · exact (C1_knapsack_dp_recurrence 5 [2, 3, 4, 5] [3, 4, 5, 6]).1 4 (by decide)

/-- C2: both table solvers visit every cell of the (rows+1) x (cols+1) grid in
row-major order, a base cell (row 0 or column 0) contributing exactly one
update step and every other cell exactly one inspect step followed by one
update step, so the total step count is 2*(rows+1)*(cols+1) minus the number
of base cells, which is rows + cols + 1. -/
theorem C2_step_counts_row_major (capacity : Nat) (weights values : List Nat)
    (str1 str2 : List Char) :
    ((Knap.steps capacity weights values).map Table.stepSig
        = (Table.rowMajor (weights.length + 1) (capacity + 1)).flatMap
            (fun p => if p.1 = 0 ∨ p.2 = 0 then [(p.1, p.2, Table.StepKind.update)]
              else [(p.1, p.2, Table.StepKind.inspect), (p.1, p.2, Table.StepKind.update)])) ∧
    (Knap.steps capacity weights values).length
      = 2 * (weights.length + 1) * (capacity + 1) - (weights.length + capacity + 1) ∧
    ((LCS.steps str1 str2).map Table.stepSig
        = (Table.rowMajor (str1.length + 1) (str2.length + 1)).flatMap
            (fun p => if p.1 = 0 ∨ p.2 = 0 then [(p.1, p.2, Table.StepKind.update)]
              else [(p.1, p.2, Table.StepKind.inspect), (p.1, p.2, Table.StepKind.update)])) ∧
    (LCS.steps str1 str2).length
      = 2 * (str1.length + 1) * (str2.length + 1) - (str1.length + str2.length + 1) := by
  refine ⟨?_, ?_, ?_, ?_⟩
  · rw [Knap.steps_eq, List.map_flatMap]
    exact Table.flatMap_congr_mem _ _ _
      (fun p _ => Knap.cellSteps_sig weights values p.1 p.2)
  · rw [Knap.steps_eq, List.length_flatMap]
    have h := Table.flatMap_length_grid (Knap.cellSteps weights values)
      (Knap.cellSteps_len weights values) capacity weights.length
    rw [List.length_flatMap] at h
    omega
  · rw [LCS.steps_eq_lcs, List.map_flatMap]
    exact Table.flatMap_congr_mem _ _ _
      (fun p _ => LCS.cellSteps_sig_lcs str1 str2 p.1 p.2)
  · rw [LCS.steps_eq_lcs, List.length_flatMap]
    have h := Table.flatMap_length_grid (LCS.cellSteps str1 str2)
      (LCS.cellSteps_len_lcs str1 str2) str2.length str1.length
    rw [List.length_flatMap] at h
    omega

/-- C3 counterexample: on str1 = "A", str2 = "B", the cell (1, 1) is a
mismatch whose top and left dependencies tie at 0, yet the update step the
solver emits highlights the left cell (1, 0), not the top cell (0, 1): the
tie-break of LCSSolver goes toward "left", refuting the claimed "top"
tie-break. -/
theorem C3_lcs_tiebreak_counterexample :
    LCS.table ['A'] ['B'] 0 1 = LCS.table ['A'] ['B'] 1 0 ∧
    ['A'].getD 0 'a' ≠ ['B'].getD 0 'a' ∧
    (LCS.steps ['A'] ['B']).filter
        (fun s => decide (s.row = 1 ∧ s.col = 1 ∧ s.kind = Table.StepKind.update))
      = [⟨1, 1, Table.StepKind.update, some 0, [(1, 0)]⟩] ∧
    ([(1, 0)] : List (Nat × Nat)) ≠ [(0, 1)] := by decide

/-- C3 amended: at a mismatch cell the committed value is
max(dp[i-1][j], dp[i][j-1]), and the emitted update step highlights the top
cell (i-1, j) exactly when dp[i-1][j] is strictly greater than dp[i][j-1];
on ties it highlights the left cell (i, j-1). -/
theorem C3_lcs_tiebreak_amended (str1 str2 : List Char) (i j : Nat)
    (hi1 : 1 ≤ i) (hi2 : i ≤ str1.length) (hj1 : 1 ≤ j) (hj2 : j ≤ str2.length)
    (hne : str1.getD (i - 1) 'a' ≠ str2.getD (j - 1) 'a') :
    LCS.table str1 str2 i j
      = max (LCS.table str1 str2 (i - 1) j) (LCS.table str1 str2 i (j - 1)) ∧
    (LCS.steps str1 str2).filter
        (fun s => decide (s.row = i ∧ s.col = j ∧ s.kind = Table.StepKind.update))
      = [⟨i, j, Table.StepKind.update,
          some (max (LCS.table str1 str2 (i - 1) j) (LCS.table str1 str2 i (j - 1))),
          if LCS.table str1 str2 i (j - 1) < LCS.table str1 str2 (i - 1) j
            then [(i - 1, j)] else [(i, j - 1)]⟩] := by
  have e1 := LCS.table_eq_dpRef_lcs str1 str2 (i - 1) j (by omega) hj2
  have e2 := LCS.table_eq_dpRef_lcs str1 str2 i (j - 1) hi2 (by omega)
  constructor
  · rw [LCS.table_eq_dpRef_lcs str1 str2 i j hi2 hj2, e1, e2]
    obtain ⟨i1, rfl⟩ : ∃ i1, i = i1 + 1 := ⟨i - 1, by omega⟩
    obtain ⟨j1, rfl⟩ : ∃ j1, j = j1 + 1 := ⟨j - 1, by omega⟩
    simp only [Nat.add_sub_cancel] at hne ⊢
    simp only [LCS.dpRef]
    rw [if_neg hne]
  · rw [e1, e2]
    exact LCS.mismatchStep_filter str1 str2 i j hi1 hi2 hj1 hj2 hne

/-- Witness for C3 amended: the tie cell (1, 1) of str1 = "A", str2 = "B". -/
theorem C3_lcs_tiebreak_amended_witness :
    LCS.table ['A'] ['B'] 1 1
      = max (LCS.table ['A'] ['B'] 0 1) (LCS.table ['A'] ['B'] 1 0) ∧
    (LCS.steps ['A'] ['B']).filter
        (fun s => decide (s.row = 1 ∧ s.col = 1 ∧ s.kind = Table.StepKind.update))
      = [⟨1, 1, Table.StepKind.update,
          some (max (LCS.table ['A'] ['B'] 0 1) (LCS.table ['A'] ['B'] 1 0)),
          if LCS.table ['A'] ['B'] 1 0 < LCS.table ['A'] ['B'] 0 1
            then [(0, 1)] else [(1, 0)]⟩] :=
  C3_lcs_tiebreak_amended ['A'] ['B'] 1 1 (by decide) (by decide) (by decide)
    (by decide) (by decide)

/-- C4: buildMaxHeap returns an array satisfying the max-heap property, every
in-bounds child being at most its parent, and the returned array is a
permutation of the input; on the concrete input [4,1,3,2,16,9,10,14,8,7] the
root of the returned array is 16. -/
theorem C4_buildMaxHeap_heap_property :
    (∀ a : List Nat,
      (∀ i, 2 * i + 1 < (Heap.buildMaxHeap a).length →
        (Heap.buildMaxHeap a).getD (2 * i + 1) 0 ≤ (Heap.buildMaxHeap a).getD i 0) ∧
      (∀ i, 2 * i + 2 < (Heap.buildMaxHeap a).length →
        (Heap.buildMaxHeap a).getD (2 * i + 2) 0 ≤ (Heap.buildMaxHeap a).getD i 0) ∧
      List.Perm (Heap.buildMaxHeap a) a) ∧
    (Heap.buildMaxHeap [4, 1, 3, 2, 16, 9, 10, 14, 8, 7]).getD 0 0 = 16 := by
  constructor
  · intro a
    obtain ⟨hlen, hperm, hok⟩ := Heap.buildMaxHeap_spec a
    exact ⟨fun i h => (hok i).1 h, fun i h => (hok i).2 h, hperm⟩
  · rw [Heap.buildMaxHeap_eq_go]
    decide

/-- Witness for C4: the left-child inequality at the root of the built heap
of [16, 3]. -/
theorem C4_buildMaxHeap_heap_property_witness :
    (Heap.buildMaxHeap [16, 3]).getD 1 0 ≤ (Heap.buildMaxHeap [16, 3]).getD 0 0 := by
  have h := (C4_buildMaxHeap_heap_property.1 [16, 3]).1 0
    (by rw [(Heap.buildMaxHeap_spec [16, 3]).1]; decide)
  simpa using h

/-- C5: the output of CountingSortSolver.solve is fully populated (every slot
of the output option array is filled), and reading the placed values gives a
non-decreasing list that is a permutation of the input. -/
theorem C5_countingSort_sorted_perm (a : List Nat) (_h : a ≠ []) :
    (∀ o ∈ CSort.solve a, o.isSome = true) ∧
    List.Sorted (· ≤ ·) ((CSort.solve a).map (fun o => o.getD 0)) ∧
    List.Perm ((CSort.solve a).map (fun o => o.getD 0)) a := by
  have hmap : (CSort.solve a).map (fun o => o.getD 0)
      = CSort.sortedUpTo a (CSort.findMaximum a) := by
    rw [CSort.solve_eq_sorted, List.map_map]
    simp [Function.comp_def]
  refine ⟨?_, ?_, ?_⟩
  · intro o ho
    rw [CSort.solve_eq_sorted, List.mem_map] at ho
    obtain ⟨x, _, rfl⟩ := ho
    rfl
  · rw [hmap]
    exact CSort.sortedUpTo_sorted a _
  · rw [hmap]
    exact CSort.sortedUpTo_perm a _ (CSort.findMaximum_ge a)

/-- Witness for C5: sortedness and permutation on the concrete input
[4, 2, 2, 8, 3, 3, 1]. -/
theorem C5_countingSort_sorted_perm_witness :
    List.Sorted (· ≤ ·) ((CSort.solve [4, 2, 2, 8, 3, 3, 1]).map (fun o => o.getD 0)) ∧
    List.Perm ((CSort.solve [4, 2, 2, 8, 3, 3, 1]).map (fun o => o.getD 0))
      [4, 2, 2, 8, 3, 3, 1] :=
  ⟨(C5_countingSort_sorted_perm [4, 2, 2, 8, 3, 3, 1] (by decide)).2.1,
   (C5_countingSort_sorted_perm [4, 2, 2, 8, 3, 3, 1] (by decide)).2.2⟩

/-- C6: on square matrices whose dimension is a power of two, the recursive
Strassen multiplication returns exactly the naive cubic product. -/
theorem C6_strassen_matches_naive (k : Nat) (A B : List (List Int))
    (hA : Strassen.WF (2 ^ k) A) (hB : Strassen.WF (2 ^ k) B) :
    Strassen.strassen A B = Strassen.naiveMultiply A B :=
  Strassen.strassen_eq_naive k A B hA hB

/-- Witness for C6: a concrete 2 x 2 instance. -/
theorem C6_strassen_matches_naive_witness :
    Strassen.strassen [[2, 1], [3, 4]] [[5, 6], [7, 8]]
      = Strassen.naiveMultiply [[2, 1], [3, 4]] [[5, 6], [7, 8]] :=
  C6_strassen_matches_naive 1 [[2, 1], [3, 4]] [[5, 6], [7, 8]]
    ⟨by decide, by decide⟩ ⟨by decide, by decide⟩

/-- C7: the knapsack traceback walk starting at (n, capacity) over the solved
dp table returns items whose values sum to dp[n][capacity] and whose weights
sum to at most the capacity. -/
theorem C7_knapsack_traceback_sums (capacity : Nat) (weights values : List Nat) :
    ((Traceback.knapsackTraceback (Knap.table capacity weights values) weights
        weights.length capacity).map (fun t => values.getD (t - 1) 0)).sum
      = Knap.table capacity weights values weights.length capacity ∧
    ((Traceback.knapsackTraceback (Knap.table capacity weights values) weights
        weights.length capacity).map (fun t => weights.getD (t - 1) 0)).sum
      ≤ capacity :=
  Traceback.knapsackTraceback_spec capacity weights values weights.length capacity
    (Nat.le_refl _) (Nat.le_refl _)

/-- C8: extractMax on the empty array returns normally: the result is the
empty heap with extractedValue none, and the last step of the trace is the
error step. -/
theorem C8_extractMax_empty_graceful :
    Heap.extractMax []
      = ⟨[], [⟨Heap.HeapStepKind.preExtractBuild, []⟩,
          ⟨Heap.HeapStepKind.preExtractComplete, []⟩,
          ⟨Heap.HeapStepKind.error, []⟩], none⟩ ∧
    (Heap.extractMax []).extractedValue = none ∧
    (Heap.extractMax []).heap = [] ∧
    (Heap.extractMax []).steps.getLast? = some ⟨Heap.HeapStepKind.error, []⟩ := by
  decide

/-- C9: a monk-mode swap attempt that does not match the expected pair (in
either click order) leaves the whole model state, in particular the user
array and currentSwapIndex, unchanged; a matching attempt swaps the two
positions of the user array and increments currentSwapIndex; and validateSwap
reports invalid whenever the swap index is at or past the end of the
expected-swap list. -/
theorem C9_monk_swap_gating (operation : Heap.HeapOperation)
    (es : List Heap.SwapPair) (st : Heap.MonkState) (f t : Nat) :
    (¬ Heap.MatchesExpected es st.currentSwapIndex f t →
      Heap.attemptSwap operation es st f t = st) ∧
    (Heap.MatchesExpected es st.currentSwapIndex f t →
      (Heap.attemptSwap operation es st f t).userArray = Heap.listSwap st.userArray f t ∧
      (Heap.attemptSwap operation es st f t).currentSwapIndex = st.currentSwapIndex + 1) ∧
    (∀ k, es.length ≤ k → Heap.validateSwap f t es k = false) := by
  refine ⟨?_, ?_, ?_⟩
  · intro h
    unfold Heap.attemptSwap
    rw [if_neg (fun hv => h ((Heap.validateSwap_iff f t es st.currentSwapIndex).mp hv))]
  · intro h
    unfold Heap.attemptSwap
    rw [if_pos ((Heap.validateSwap_iff f t es st.currentSwapIndex).mpr h)]
    exact ⟨rfl, rfl⟩
  · intro k hk
    unfold Heap.validateSwap
    rw [if_pos hk]

/-- Witness for C9: a non-matching click pair on a concrete state is a
no-op, and a matching one swaps and advances. -/
theorem C9_monk_swap_gating_witness :
    Heap.attemptSwap Heap.HeapOperation.build [⟨0, 1⟩] ⟨[5, 9], 0, ⟨0, 0, 0⟩⟩ 2 3
      = ⟨[5, 9], 0, ⟨0, 0, 0⟩⟩ ∧
    (Heap.attemptSwap Heap.HeapOperation.build [⟨0, 1⟩] ⟨[5, 9], 0, ⟨0, 0, 0⟩⟩ 1 0).userArray
      = Heap.listSwap [5, 9] 1 0 ∧
    (Heap.attemptSwap Heap.HeapOperation.build [⟨0, 1⟩] ⟨[5, 9], 0, ⟨0, 0, 0⟩⟩
        1 0).currentSwapIndex = 0 + 1 :=
  ⟨(C9_monk_swap_gating Heap.HeapOperation.build [⟨0, 1⟩] ⟨[5, 9], 0, ⟨0, 0, 0⟩⟩ 2 3).1
      (by decide),
   ((C9_monk_swap_gating Heap.HeapOperation.build [⟨0, 1⟩] ⟨[5, 9], 0, ⟨0, 0, 0⟩⟩ 1 0).2.1
      (by decide)).1,
   ((C9_monk_swap_gating Heap.HeapOperation.build [⟨0, 1⟩] ⟨[5, 9], 0, ⟨0, 0, 0⟩⟩ 1 0).2.1
      (by decide)).2⟩

/-- C10: at a knapsack decision cell whose item fits, when the include and
exclude candidates tie the committed update step carries the common value and
highlights the exclude dependency cell (i-1, w); the include cell
(i-1, w-weights[i-1]) is highlighted only when the include candidate is
strictly greater, in which case the committed value is the include
candidate. -/
theorem C10_knapsack_tie_exclude_highlight (capacity : Nat)
    (weights values : List Nat) (i w : Nat)
    (hi1 : 1 ≤ i) (hi2 : i ≤ weights.length) (hw1 : 1 ≤ w) (hw2 : w ≤ capacity)
    (hcw : weights.getD (i - 1) 0 ≤ w) :
    (values.getD (i - 1) 0
        + Knap.table capacity weights values (i - 1) (w - weights.getD (i - 1) 0)
        = Knap.table capacity weights values (i - 1) w →
      (Knap.steps capacity weights values).filter
          (fun s => decide (s.row = i ∧ s.col = w ∧ s.kind = Table.StepKind.update))
        = [⟨i, w, Table.StepKind.update,
            some (Knap.table capacity weights values (i - 1) w), [(i - 1, w)]⟩]) ∧
    (Knap.table capacity weights values (i - 1) w
        < values.getD (i - 1) 0
          + Knap.table capacity weights values (i - 1) (w - weights.getD (i - 1) 0) →
      (Knap.steps capacity weights values).filter
          (fun s => decide (s.row = i ∧ s.col = w ∧ s.kind = Table.StepKind.update))
        = [⟨i, w, Table.StepKind.update,
            some (values.getD (i - 1) 0
              + Knap.table capacity weights values (i - 1) (w - weights.getD (i - 1) 0)),
            [(i - 1, w - weights.getD (i - 1) 0)]⟩]) := by
  have e1 := Knap.table_eq_dpRef capacity weights values (i - 1)
    (w - weights.getD (i - 1) 0) (by omega) (by omega)
  have e2 := Knap.table_eq_dpRef capacity weights values (i - 1) w (by omega) hw2
  have hf := Knap.updateStep_filter capacity weights values i w hi1 hi2 hw1 hw2 hcw
  constructor
  · intro heq
    rw [e1, e2] at heq
    rw [hf, e2]
    have h1 : ¬(Knap.dpRef weights values (i - 1) w
        < values.getD (i - 1) 0
          + Knap.dpRef weights values (i - 1) (w - weights.getD (i - 1) 0)) := by omega
    rw [if_neg h1, Nat.max_eq_right (Nat.le_of_eq heq)]
  · intro hlt
    rw [e1, e2] at hlt
    rw [hf, e1]
    rw [if_pos hlt, Nat.max_eq_left (Nat.le_of_lt hlt)]

/-- Witness for C10: the tie at cell (2, 2) of weights [2, 2], values [3, 3],
capacity 2, whose update step highlights the exclude cell (1, 2). -/
theorem C10_knapsack_tie_exclude_highlight_witness :
    (Knap.steps 2 [2, 2] [3, 3]).filter
        (fun s => decide (s.row = 2 ∧ s.col = 2 ∧ s.kind = Table.StepKind.update))
      = [⟨2, 2, Table.StepKind.update, some (Knap.table 2 [2, 2] [3, 3] 1 2), [(1, 2)]⟩] :=
  (C10_knapsack_tie_exclude_highlight 2 [2, 2] [3, 3] 2 2 (by decide) (by decide)
    (by decide) (by decide) (by decide)).1 (by decide)
